import Mathlib

/-!
Verification of the NTFS_Parser repository: a shallow embedding of the
byte-level decoders (`src/mft_parser.py`, `src/image_handler.py`,
`src/usnjrnl_parser.py`, `src/logfile_parser.py`, `src/constants.py`,
`src/analyzer.py`) together with theorems settling the specification
claims about them.

Bytes are modelled as `List Nat` (each element a byte value `< 256` where
that matters); little-endian multi-byte reads are explicit; Python's
`struct.unpack` on a too-short slice (an exception) is modelled by
`Option`/early-return exactly where the source catches or avoids it.
-/

namespace NTFS

/-- Python slice `data[a:b]` on a byte list. -/
def slice (data : List Nat) (a b : Nat) : List Nat :=
  (data.drop a).take (b - a)

/-- Little-endian value of a byte list (`int.from_bytes(bytes, 'little')`). -/
def leVal : List Nat → Nat
  | [] => 0
  | b :: rest => b + 256 * leVal rest

/-- `struct.unpack('<H', data[a:a+2])`: `none` models a `struct.error`. -/
def unpack16 (data : List Nat) (a : Nat) : Option Nat :=
  let s := slice data a (a + 2)
  if s.length = 2 then some (leVal s) else none

/-- `struct.unpack('<I', data[a:a+4])`: `none` models a `struct.error`. -/
def unpack32 (data : List Nat) (a : Nat) : Option Nat :=
  let s := slice data a (a + 4)
  if s.length = 4 then some (leVal s) else none

/-- `struct.unpack('<Q', data[a:a+8])`: `none` models a `struct.error`. -/
def unpack64 (data : List Nat) (a : Nat) : Option Nat :=
  let s := slice data a (a + 8)
  if s.length = 8 then some (leVal s) else none

/-- `constants.parse_file_reference`: low 48 bits are the entry number,
the next 16 bits the sequence number. -/
def parse_file_reference (ref : Nat) : Nat × Nat :=
  (ref % 2 ^ 48, ref / 2 ^ 48 % 2 ^ 16)

/-! ## Data runs (`MFTEntry._parse_data_runs`) -/

/-- One decoded data run (`{'start_cluster': …, 'length': …, 'sparse': …}`). -/
structure Run where
  start_cluster : Int
  length : Nat
  sparse : Bool
  deriving Repr, DecidableEq

/-- The source's signed conversion of the offset bytes: read the bytes as an
unsigned little-endian value and subtract `2^(8·n)` when
`offset_bytes[-1] & 0x80` is set (bit 7 of the last byte, i.e. its value
divided by 128 is odd). -/
def runOffsetSigned (offBytes : List Nat) : Int :=
  let u : Int := leVal offBytes
  if offBytes.getD (offBytes.length - 1) 0 / 128 % 2 = 1 then
    u - 2 ^ (offBytes.length * 8)
  else u

/-- Sign-extended two's-complement little-endian integer, as the spec words
it: the unsigned value minus `2^(8·n)` when it is at least `2^(8·n−1)`. -/
def signedLE (offBytes : List Nat) : Int :=
  let u : Int := leVal offBytes
  if u ≥ 2 ^ (offBytes.length * 8 - 1) then u - 2 ^ (offBytes.length * 8) else u

/-- Fuelled loop body of `MFTEntry._parse_data_runs`: `data` is the tail of
the run list not yet consumed, `cur` the running LCN. -/
def parseRunsAux : Nat → List Nat → Int → List Run
  | 0, _, _ => []
  | fuel + 1, data, cur =>
    match data with
    | [] => []
    | header :: _ =>
      if header = 0 then []
      else
        let lengthSize := header % 16
        let offsetSize := header / 16 % 16
        if lengthSize = 0 then []
        else if 1 + lengthSize + offsetSize > data.length then []
        else
          let lengthBytes := slice data 1 (1 + lengthSize)
          let runLength := leVal lengthBytes
          if offsetSize > 0 then
            let offBytes := slice data (1 + lengthSize) (1 + lengthSize + offsetSize)
            let cur' := cur + runOffsetSigned offBytes
            ⟨cur', runLength, false⟩ ::
              parseRunsAux fuel (data.drop (1 + lengthSize + offsetSize)) cur'
          else
            ⟨0, runLength, true⟩ ::
              parseRunsAux fuel (data.drop (1 + lengthSize + offsetSize)) cur

/-- `MFTEntry._parse_data_runs(data)` with running LCN starting at 0. -/
def parse_data_runs (data : List Nat) : List Run :=
  parseRunsAux data.length data 0

/-! ## UTF-16LE decoding

Python's `bytes.decode('utf-16-le')` in strict mode (`none` on a lone
surrogate or odd tail, which the source catches via `try/except`), and in
`errors='ignore'` mode (invalid units dropped). Decoded strings are kept as
lists of Unicode code points. -/

/-- Strict UTF-16LE decode to code points; `none` models `UnicodeDecodeError`. -/
def utf16StrictAux : Nat → List Nat → Option (List Nat)
  | 0, [] => some []
  | 0, _ :: _ => none
  | _ + 1, [] => some []
  | _ + 1, [_] => none
  | fuel + 1, b0 :: b1 :: rest =>
    let u := b0 + 256 * b1
    if 0xD800 ≤ u ∧ u ≤ 0xDBFF then
      match rest with
      | c0 :: c1 :: rest2 =>
        let v := c0 + 256 * c1
        if 0xDC00 ≤ v ∧ v ≤ 0xDFFF then
          (utf16StrictAux fuel rest2).map
            (fun tl => (0x10000 + (u - 0xD800) * 0x400 + (v - 0xDC00)) :: tl)
        else none
      | _ => none
    else if 0xDC00 ≤ u ∧ u ≤ 0xDFFF then none
    else (utf16StrictAux fuel rest).map (fun tl => u :: tl)

/-- Strict UTF-16LE decode of a byte list. -/
def utf16Strict (bytes : List Nat) : Option (List Nat) :=
  utf16StrictAux bytes.length bytes

/-- UTF-16LE decode with `errors='ignore'`: lone surrogates and an odd
trailing byte are dropped. -/
def utf16IgnoreAux : Nat → List Nat → List Nat
  | 0, _ => []
  | _ + 1, [] => []
  | _ + 1, [_] => []
  | fuel + 1, b0 :: b1 :: rest =>
    let u := b0 + 256 * b1
    if 0xD800 ≤ u ∧ u ≤ 0xDBFF then
      match rest with
      | c0 :: c1 :: rest2 =>
        let v := c0 + 256 * c1
        if 0xDC00 ≤ v ∧ v ≤ 0xDFFF then
          (0x10000 + (u - 0xD800) * 0x400 + (v - 0xDC00)) :: utf16IgnoreAux fuel rest2
        else utf16IgnoreAux fuel rest
      | _ => []
    else if 0xDC00 ≤ u ∧ u ≤ 0xDFFF then utf16IgnoreAux fuel rest
    else u :: utf16IgnoreAux fuel rest

/-- UTF-16LE decode of a byte list with `errors='ignore'`. -/
def utf16Ignore (bytes : List Nat) : List Nat :=
  utf16IgnoreAux bytes.length bytes

/-! ## MFT entry decoding (`mft_parser.MFTEntry`) -/

/-- Fields `_parse_non_resident_attr` stores on the attribute dict. -/
structure NonResInfo where
  start_vcn : Nat
  end_vcn : Nat
  run_offset : Nat
  compression_unit : Nat
  allocated_size : Nat
  real_size : Nat
  initialized_size : Nat
  data_runs : Option (List Run)
  deriving Repr, DecidableEq

/-- Fields `_parse_standard_info` stores on the attribute dict. -/
structure StdInfo where
  si_created : Nat
  si_modified : Nat
  si_mft_modified : Nat
  si_accessed : Nat
  si_flags : Nat
  deriving Repr, DecidableEq

/-- Fields `_parse_filename` stores on the attribute dict; `filename` is the
decoded name's code points (`[]` both for a failed decode and for an unset
key, matching every `attr.get('filename', '')` use in the source). -/
structure FileNameInfo where
  parent_ref : Nat
  fn_created : Nat
  fn_modified : Nat
  fn_mft_modified : Nat
  fn_accessed : Nat
  fn_allocated_size : Nat
  fn_real_size : Nat
  fn_flags : Nat
  fn_namespace : Nat
  filename : List Nat
  deriving Repr, DecidableEq

/-- One parsed attribute (`MFTEntry._parse_attribute`'s dict): optional keys
of the Python dict become `Option` fields. -/
structure Attr where
  type : Nat
  length : Nat
  non_resident : Bool
  name_length : Nat
  name_offset : Nat
  flags : Nat
  id : Nat
  name : List Nat
  resData : Option (List Nat)
  nonres : Option NonResInfo
  si : Option StdInfo
  fn : Option FileNameInfo
  deriving Repr, DecidableEq

/-- `MFTEntry._parse_resident_attr`: `none` when fewer than 24 header bytes
(the `'data'` key is left unset); out-of-range content yields `b''`. -/
def parseResidentData (data : List Nat) : Option (List Nat) :=
  if data.length < 24 then none
  else
    let content_size := leVal (slice data 16 20)
    let content_offset := leVal (slice data 20 22)
    if content_offset + content_size ≤ data.length then
      some (slice data content_offset (content_offset + content_size))
    else some []

/-- `MFTEntry._parse_non_resident_attr`: `none` when fewer than 48 header
bytes (the function returns without setting any key). `real_size` and
`initialized_size` are read from bytes 48..64 only when `start_vcn == 0`
and at least 64 bytes are present; otherwise they copy `allocated_size`. -/
def parseNonResident (data : List Nat) : Option NonResInfo :=
  if data.length < 48 then none
  else
    let start_vcn := leVal (slice data 16 24)
    let end_vcn := leVal (slice data 24 32)
    let run_offset := leVal (slice data 32 34)
    let compression_unit := leVal (slice data 34 36)
    let allocated_size := leVal (slice data 40 48)
    let real_size :=
      if start_vcn = 0 ∧ data.length ≥ 64 then leVal (slice data 48 56) else allocated_size
    let initialized_size :=
      if start_vcn = 0 ∧ data.length ≥ 64 then leVal (slice data 56 64) else allocated_size
    let data_runs :=
      if run_offset < data.length then some (parse_data_runs (data.drop run_offset)) else none
    some ⟨start_vcn, end_vcn, run_offset, compression_unit, allocated_size,
          real_size, initialized_size, data_runs⟩

/-- `MFTEntry._parse_standard_info` on `attr.get('data', b'')`. -/
def parseStdInfo (d : List Nat) : Option StdInfo :=
  if d.length < 48 then none
  else some ⟨leVal (slice d 0 8), leVal (slice d 8 16), leVal (slice d 16 24),
             leVal (slice d 24 32), leVal (slice d 32 36)⟩

/-- `MFTEntry._parse_filename` on `attr.get('data', b'')`. -/
def parseFileName (d : List Nat) : Option FileNameInfo :=
  if d.length < 66 then none
  else
    let name_length := d.getD 64 0
    let filename :=
      if d.length ≥ 66 + name_length * 2 then
        (utf16Strict (slice d 66 (66 + name_length * 2))).getD []
      else []
    some ⟨leVal (slice d 0 8), leVal (slice d 8 16), leVal (slice d 16 24),
          leVal (slice d 24 32), leVal (slice d 32 40), leVal (slice d 40 48),
          leVal (slice d 48 56), leVal (slice d 56 60), d.getD 65 0, filename⟩

/-- `MFTEntry._parse_attribute`. -/
def parseAttribute (attr_type : Nat) (data : List Nat) : Option Attr :=
  if data.length < 16 then none
  else
    let non_resident := data.getD 8 0 ≠ 0
    let name_length := data.getD 9 0
    let name_offset := leVal (slice data 10 12)
    let name :=
      if name_length > 0 then
        if name_offset + name_length * 2 ≤ data.length then
          (utf16Strict (slice data name_offset (name_offset + name_length * 2))).getD []
        else []
      else []
    let resData := if non_resident then none else parseResidentData data
    let nonres := if non_resident then parseNonResident data else none
    let si := if attr_type = 0x10 then parseStdInfo (resData.getD []) else none
    let fn := if attr_type = 0x30 then parseFileName (resData.getD []) else none
    some ⟨attr_type, data.length, non_resident, name_length, name_offset,
          leVal (slice data 12 14), leVal (slice data 14 16), name,
          resData, nonres, si, fn⟩

/-- Fuelled loop of `MFTEntry._parse_attributes`. -/
def parseAttrsAux : Nat → List Nat → Nat → Nat → List Attr
  | 0, _, _, _ => []
  | fuel + 1, data, offset, max_offset =>
    if offset + 4 ≤ data.length ∧ offset < max_offset then
      let attr_type := leVal (slice data offset (offset + 4))
      if attr_type = 0xFFFFFFFF then []
      else if offset + 8 > data.length then []
      else
        let attr_length := leVal (slice data (offset + 4) (offset + 8))
        if attr_length = 0 ∨ attr_length > data.length - offset then []
        else
          let attr_data := slice data offset (offset + attr_length)
          (match parseAttribute attr_type attr_data with
           | some a => [a]
           | none => []) ++ parseAttrsAux fuel data (offset + attr_length) max_offset
    else []

/-- `MFTEntry._parse_attributes(start_offset, max_offset)`. -/
def parseAttributes (data : List Nat) (start_offset max_offset : Nat) : List Attr :=
  parseAttrsAux data.length data start_offset max_offset

/-- Python `data[i:i+v.length] = v` on a byte list. -/
def spliceBytes (l : List Nat) (i : Nat) (v : List Nat) : List Nat :=
  l.take i ++ v ++ l.drop (i + v.length)

/-- Fuelled loop of `MFTEntry._apply_fixup`: for `i` in `1..count-1`, replace
the two bytes at `i*512-2` with the two bytes at `offset + 2*i` — with no
comparison against the signature word at `offset..offset+2`. -/
def applyFixupAux (offset : Nat) : Nat → Nat → List Nat → List Nat
  | 0, _, data => data
  | steps + 1, i, data =>
    let fixup_value := slice data (offset + i * 2) (offset + i * 2 + 2)
    let sector_end := i * 512 - 2
    let data' :=
      if sector_end + 2 ≤ data.length then spliceBytes data sector_end fixup_value
      else data
    applyFixupAux offset steps (i + 1) data'

/-- `MFTEntry._apply_fixup(offset, count)`. -/
def applyFixup (data : List Nat) (offset count : Nat) : List Nat :=
  applyFixupAux offset (count - 1) 1 data

/-- The entry state after a successful `MFTEntry.parse`. -/
structure MFTEntryM where
  sequence : Nat
  flags : Nat
  attributes : List Attr
  data : List Nat
  deriving Repr, DecidableEq

/-- `MFTEntry.parse`: `none` models `return False` (short buffer, bad or
`BAAD` signature); fixup values are substituted but never verified. -/
def mftEntryParse (data : List Nat) : Option MFTEntryM :=
  if data.length < 48 then none
  else if slice data 0 4 ≠ [0x46, 0x49, 0x4C, 0x45] then none
  else
    let fixup_offset := leVal (slice data 4 6)
    let fixup_count := leVal (slice data 6 8)
    let data :=
      if fixup_count > 0 ∧ fixup_offset + fixup_count * 2 ≤ data.length then
        applyFixup data fixup_offset fixup_count
      else data
    let sequence := leVal (slice data 16 18)
    let flags := leVal (slice data 22 24)
    let attr_offset := leVal (slice data 20 22)
    let used_size := leVal (slice data 24 28)
    some ⟨sequence, flags, parseAttributes data attr_offset used_size, data⟩

/-- The decoded record (`mft_parser.MFTRecord`); FILETIME fields are kept
raw (their string rendering is presentation-only and not embedded). -/
structure MFTRecordM where
  entry_number : Nat := 0
  sequence_number : Nat := 0
  flags : Nat := 0
  in_use : Bool := false
  is_directory : Bool := false
  si_created : Nat := 0
  si_modified : Nat := 0
  si_mft_modified : Nat := 0
  si_accessed : Nat := 0
  si_flags : Nat := 0
  filename : List Nat := []
  parent_ref : Nat := 0
  fn_created : Nat := 0
  fn_modified : Nat := 0
  fn_mft_modified : Nat := 0
  fn_accessed : Nat := 0
  fn_flags : Nat := 0
  fn_allocated_size : Nat := 0
  fn_real_size : Nat := 0
  data_size : Nat := 0
  is_resident : Bool := true
  deriving Repr, DecidableEq

/-- Namespace of a $FILE_NAME attribute: `attr.get('fn_namespace', 0)`. -/
def fnNamespace (a : Attr) : Nat :=
  (a.fn.map FileNameInfo.fn_namespace).getD 0

/-- The best-name loop of `MFTEntry.to_record`, with its accumulator: a
Win32 or Win32+DOS name breaks the loop; otherwise any first $FILE_NAME
attribute is kept (the POSIX branch and the final fallback coincide). -/
def bestFilenameAux : List Attr → Option Attr → Option Attr
  | [], best => best
  | a :: rest, best =>
    if a.type = 0x30 then
      let ns := fnNamespace a
      if ns = 1 ∨ ns = 3 then some a
      else if ns = 0 ∧ best.isNone then bestFilenameAux rest (some a)
      else if best.isNone then bestFilenameAux rest (some a)
      else bestFilenameAux rest best
    else bestFilenameAux rest best

/-- First attribute of the given type (`for attr in self.attributes: if
attr['type'] == …: …; break`). -/
def firstAttrOfType (attrs : List Attr) (t : Nat) : Option Attr :=
  attrs.find? (fun a => a.type == t)

/-- A `$FILE_NAME` attribute in the Win32 or Win32+DOS namespace. -/
def isWin32Fn (a : Attr) : Bool :=
  a.type == 0x30 && (fnNamespace a == 1 || fnNamespace a == 3)

/-- Any `$FILE_NAME` attribute. -/
def isFnType (a : Attr) : Bool :=
  a.type == 0x30

/-- The filename a chosen attribute contributes to the record
(`best_filename.get('filename', '')`). -/
def fnFilename (a : Attr) : List Nat :=
  (a.fn.map FileNameInfo.filename).getD []

/-- `MFTEntry.to_record` on a successfully parsed entry (`is_valid` holds
exactly when `mftEntryParse` returned `some`). -/
def mftToRecord (e : MFTEntryM) (entry_number : Nat) : MFTRecordM :=
  let base : MFTRecordM :=
    { entry_number := entry_number
      sequence_number := e.sequence
      flags := e.flags
      in_use := e.flags % 2 = 1
      is_directory := e.flags / 2 % 2 = 1 }
  let withSi :=
    match firstAttrOfType e.attributes 0x10 with
    | some a =>
      { base with
        si_created := ((a.si.map StdInfo.si_created).getD 0)
        si_modified := ((a.si.map StdInfo.si_modified).getD 0)
        si_mft_modified := ((a.si.map StdInfo.si_mft_modified).getD 0)
        si_accessed := ((a.si.map StdInfo.si_accessed).getD 0)
        si_flags := ((a.si.map StdInfo.si_flags).getD 0) }
    | none => base
  let withFn :=
    match bestFilenameAux e.attributes none with
    | some a =>
      { withSi with
        filename := (a.fn.map FileNameInfo.filename).getD []
        parent_ref := (a.fn.map FileNameInfo.parent_ref).getD 0
        fn_created := (a.fn.map FileNameInfo.fn_created).getD 0
        fn_modified := (a.fn.map FileNameInfo.fn_modified).getD 0
        fn_mft_modified := (a.fn.map FileNameInfo.fn_mft_modified).getD 0
        fn_accessed := (a.fn.map FileNameInfo.fn_accessed).getD 0
        fn_flags := (a.fn.map FileNameInfo.fn_flags).getD 0
        fn_allocated_size := (a.fn.map FileNameInfo.fn_allocated_size).getD 0
        fn_real_size := (a.fn.map FileNameInfo.fn_real_size).getD 0 }
    | none => withSi
  match e.attributes.find? (fun a => a.type == 0x80 && a.name == ([] : List Nat)) with
  | some a =>
    { withFn with
      is_resident := !a.non_resident
      data_size :=
        if a.non_resident then (a.nonres.map NonResInfo.real_size).getD 0
        else ((a.resData).getD []).length }
  | none => withFn

/-! ## Stream extraction (`NTFSExtractor._extract_from_data_runs`) -/

/-- The sparse branch's per-cluster loop (`for _ in range(length)` writing
`zero_chunk`s, clipped against `real_size`): returns the bytes written and
the updated `written` counter. -/
def sparseFill (clusterSize realSize : Nat) : Nat → Nat → List Nat × Nat
  | 0, written => ([], written)
  | cnt + 1, written =>
    if realSize > 0 then
      if realSize ≤ written then ([], written)
      else
        let remaining := realSize - written
        if remaining < clusterSize then
          let (tl, w) := sparseFill clusterSize realSize cnt (written + remaining)
          (List.replicate remaining 0 ++ tl, w)
        else
          let (tl, w) := sparseFill clusterSize realSize cnt (written + clusterSize)
          (List.replicate clusterSize 0 ++ tl, w)
    else
      let (tl, w) := sparseFill clusterSize realSize cnt (written + clusterSize)
      (List.replicate clusterSize 0 ++ tl, w)

/-- The non-sparse branch's per-cluster loop (`for i in range(length)`
reading `cluster + i` and clipping against `real_size`). `readCluster`
abstracts `partition.read_cluster`. -/
def clusterCopy (readCluster : Int → List Nat) (realSize : Nat) (start : Int) :
    Nat → Nat → Nat → List Nat × Nat
  | 0, _, written => ([], written)
  | cnt + 1, i, written =>
    if realSize > 0 ∧ realSize ≤ written then ([], written)
    else
      let cd := readCluster (start + i)
      if realSize > 0 then
        let remaining := realSize - written
        if remaining < cd.length then
          let (tl, w) := clusterCopy readCluster realSize start cnt (i + 1) (written + remaining)
          (cd.take remaining ++ tl, w)
        else
          let (tl, w) := clusterCopy readCluster realSize start cnt (i + 1) (written + cd.length)
          (cd ++ tl, w)
      else
        let (tl, w) := clusterCopy readCluster realSize start cnt (i + 1) (written + cd.length)
        (cd ++ tl, w)

/-- Per-run loop of `_extract_from_data_runs`: a run flagged sparse — or
whose `start_cluster` is 0 — is zero-filled (or skipped when `skipSparse`),
any other run is copied from its clusters. -/
def extractRunsAux (clusterSize : Nat) (readCluster : Int → List Nat) (realSize : Nat)
    (skipSparse : Bool) : List Run → Nat → List Nat
  | [], _ => []
  | run :: rest, written =>
    if realSize > 0 ∧ realSize ≤ written then []
    else if run.sparse ∨ run.start_cluster = 0 then
      let sparseSize := run.length * clusterSize
      if skipSparse then extractRunsAux clusterSize readCluster realSize skipSparse rest (written + sparseSize)
      else
        let (bytes, w) := sparseFill clusterSize realSize run.length written
        bytes ++ extractRunsAux clusterSize readCluster realSize skipSparse rest w
    else
      let (bytes, w) := clusterCopy readCluster realSize run.start_cluster run.length 0 written
      bytes ++ extractRunsAux clusterSize readCluster realSize skipSparse rest w

/-- `NTFSExtractor._extract_from_data_runs(data_runs, real_size, out_file,
skip_sparse)`: the byte stream written to `out_file`. -/
def extract_from_data_runs (clusterSize : Nat) (readCluster : Int → List Nat)
    (runs : List Run) (realSize : Nat) (skipSparse : Bool) : List Nat :=
  extractRunsAux clusterSize readCluster realSize skipSparse runs 0

/-- What one run contributes to the output in the code's behaviour: zero
bytes for a sparse-or-LCN-0 run, the referenced clusters otherwise. -/
def runExpansion (clusterSize : Nat) (readCluster : Int → List Nat) (run : Run) : List Nat :=
  if run.sparse ∨ run.start_cluster = 0 then List.replicate (run.length * clusterSize) 0
  else (List.range run.length).flatMap (fun i => readCluster (run.start_cluster + i))

/-! ## Path cache (`MFTParser.build_path_cache`)

The first pass over the MFT (file I/O) is abstracted into the two maps it
produces: `nameMap` (entry → best filename) and `parentMap` (entry →
parent entry). Python dicts become association lists whose `lookup` finds
the most recent insertion. -/

/-- The inner memoized, cycle-guarded `get_path`: returns the path and the
updated cache. Fuel only bounds the recursion depth (in the source it is
bounded by the visited set, which grows on every nested call). -/
def getPathAux (nameMap : List (Nat × String)) (parentMap : List (Nat × Nat)) :
    Nat → Nat → List Nat → List (Nat × String) → String × List (Nat × String)
  | 0, _, _, cache => ("", cache)
  | fuel + 1, entryNum, visited, cache =>
    match cache.lookup entryNum with
    | some p => (p, cache)
    | none =>
      match nameMap.lookup entryNum with
      | none => ("", cache)
      | some name =>
        if entryNum ∈ visited then ("", cache)
        else
          let visited' := entryNum :: visited
          let parent := (parentMap.lookup entryNum).getD 0
          if entryNum = 5 then
            ("\\", (entryNum, "\\") :: cache)
          else if parent = 5 ∨ parent = entryNum then
            ("\\" ++ name, (entryNum, "\\" ++ name) :: cache)
          else
            let (pp, cache') := getPathAux nameMap parentMap fuel parent visited' cache
            let path := if pp ≠ "" then pp ++ "\\" ++ name else "\\" ++ name
            (path, (entryNum, path) :: cache')

/-- The driving loop `for entry_num in name_map: get_path(entry_num)`. -/
def buildPathCacheAux (nameMap : List (Nat × String)) (parentMap : List (Nat × Nat))
    (fuel : Nat) : List Nat → List (Nat × String) → List (Nat × String)
  | [], cache => cache
  | k :: ks, cache =>
    buildPathCacheAux nameMap parentMap fuel ks (getPathAux nameMap parentMap fuel k [] cache).2

/-- `MFTParser.build_path_cache` — the resulting `path_cache` given the
name/parent maps collected by the first pass. -/
def build_path_cache (nameMap : List (Nat × String)) (parentMap : List (Nat × Nat)) :
    List (Nat × String) :=
  buildPathCacheAux nameMap parentMap (nameMap.length + 1) (nameMap.map Prod.fst) []

/-! ## Partition probe (`image_handler`) -/

/-- `NTFSPartition` geometry after `parse_boot_sector`. -/
structure BootInfo where
  offset : Nat
  bytes_per_sector : Nat
  sectors_per_cluster : Nat
  cluster_size : Nat
  mft_offset : Nat
  mft_entry_size : Nat
  deriving Repr, DecidableEq

/-- `ImageHandler.read(offset, size)` over a raw image: a short read at EOF
returns fewer bytes. -/
def imageRead (image : List Nat) (offset size : Nat) : List Nat :=
  slice image offset (offset + size)

/-- The byte string `b'NTFS    '`. -/
def ntfsSig : List Nat := [0x4E, 0x54, 0x46, 0x53, 0x20, 0x20, 0x20, 0x20]

/-- Python indexing `l[i]`: `none` models an `IndexError`. -/
def pyIndex (l : List Nat) (i : Nat) : Option Nat :=
  if i < l.length then some (l.getD i 0) else none

/-- `NTFSPartition.parse_boot_sector`: `.ok none` models `return False`
(signature mismatch), `.error` an uncaught `struct.error` on a short
buffer. -/
def parseBootSector (image : List Nat) (offset : Nat) : Except Unit (Option BootInfo) :=
  let data := imageRead image offset 512
  if slice data 3 11 ≠ ntfsSig then .ok none
  else
    match unpack16 data 0x0B, pyIndex data 0x0D, unpack64 data 0x30, pyIndex data 0x40 with
    | some bps, some spc, some mftCluster, some rawByte =>
      let cluster_size := bps * spc
      let mft_offset := offset + mftCluster * cluster_size
      let mft_entry_size :=
        if 0 < rawByte ∧ rawByte < 128 then rawByte * cluster_size
        else if rawByte = 0 then 1
        else 2 ^ (256 - rawByte)
      .ok (some ⟨offset, bps, spc, cluster_size, mft_offset, mft_entry_size⟩)
    | _, _, _, _ => .error ()

/-- The four-iteration MBR partition-entry walk of `find_ntfs_partitions`. -/
def mbrScanAux (image mbr : List Nat) : Nat → Nat → Except Unit (List BootInfo)
  | 0, _ => .ok []
  | cnt + 1, i =>
    let entry := slice mbr (446 + i * 16) (446 + i * 16 + 16)
    match pyIndex entry 4 with
    | none => .error ()
    | some partitionType =>
      if partitionType = 0x07 ∨ partitionType = 0x17 ∨ partitionType = 0x27 then
        match unpack32 entry 8 with
        | none => .error ()
        | some lba =>
          match parseBootSector image (lba * 512) with
          | .error e => .error e
          | .ok op =>
            match mbrScanAux image mbr cnt (i + 1) with
            | .error e => .error e
            | .ok rest => .ok ((op.toList) ++ rest)
      else mbrScanAux image mbr cnt (i + 1)

/-- The Microsoft Basic Data partition-type GUID bytes. -/
def msBasicDataGuid : List Nat :=
  [0xA2, 0xA0, 0xD0, 0xEB, 0xE5, 0xB9, 0x33, 0x44,
   0x87, 0xC0, 0x68, 0xB6, 0xB7, 0x26, 0x99, 0xC7]

/-- The GPT partition-entry walk of `find_ntfs_partitions`. -/
def gptScanAux (image : List Nat) (entryLba entrySize : Nat) : Nat → Nat → Except Unit (List BootInfo)
  | 0, _ => .ok []
  | cnt + 1, i =>
    let entry := imageRead image (entryLba * 512 + i * entrySize) entrySize
    let guid := slice entry 0 16
    if guid = msBasicDataGuid ∨ guid ≠ List.replicate 16 0 then
      match unpack64 entry 32 with
      | none => .error ()
      | some startLba =>
        if startLba > 0 then
          match parseBootSector image (startLba * 512) with
          | .error e => .error e
          | .ok op =>
            match gptScanAux image entryLba entrySize cnt (i + 1) with
            | .error e => .error e
            | .ok rest => .ok (op.toList ++ rest)
        else gptScanAux image entryLba entrySize cnt (i + 1)
    else gptScanAux image entryLba entrySize cnt (i + 1)

/-- `image_handler.find_ntfs_partitions`: when LBA 0 does not end in
`55 AA` the whole image is probed at offset 0 and neither the MBR entries
nor the GPT header is read; otherwise the MBR walk runs, then the GPT walk
when LBA 1 starts with `EFI PART`. -/
def find_ntfs_partitions (image : List Nat) : Except Unit (List BootInfo) :=
  let mbr := imageRead image 0 512
  if slice mbr 510 512 ≠ [0x55, 0xAA] then
    match parseBootSector image 0 with
    | .error e => .error e
    | .ok (some p) => .ok [p]
    | .ok none => .ok []
  else
    match mbrScanAux image mbr 4 0 with
    | .error e => .error e
    | .ok fromMbr =>
      let gptHeader := imageRead image 512 512
      if slice gptHeader 0 8 = [0x45, 0x46, 0x49, 0x20, 0x50, 0x41, 0x52, 0x54] then
        match unpack64 gptHeader 72, unpack32 gptHeader 80, unpack32 gptHeader 84 with
        | some entryLba, some numEntries, some entrySize =>
          match gptScanAux image entryLba entrySize (min numEntries 128) 0 with
          | .error e => .error e
          | .ok fromGpt => .ok (fromMbr ++ fromGpt)
        | _, _, _ => .error ()
      else .ok fromMbr

/-! ## UTF-16LE decoding with `errors='replace'` -/

/-- UTF-16LE decode with `errors='replace'`: each invalid unit (lone
surrogate, odd trailing byte) becomes U+FFFD. -/
def utf16ReplaceAux : Nat → List Nat → List Nat
  | 0, _ => []
  | _ + 1, [] => []
  | _ + 1, [_] => [0xFFFD]
  | fuel + 1, b0 :: b1 :: rest =>
    let u := b0 + 256 * b1
    if 0xD800 ≤ u ∧ u ≤ 0xDBFF then
      match rest with
      | c0 :: c1 :: rest2 =>
        let v := c0 + 256 * c1
        if 0xDC00 ≤ v ∧ v ≤ 0xDFFF then
          (0x10000 + (u - 0xD800) * 0x400 + (v - 0xDC00)) :: utf16ReplaceAux fuel rest2
        else 0xFFFD :: utf16ReplaceAux fuel rest
      | _ => 0xFFFD :: utf16ReplaceAux fuel rest
    else if 0xDC00 ≤ u ∧ u ≤ 0xDFFF then 0xFFFD :: utf16ReplaceAux fuel rest
    else u :: utf16ReplaceAux fuel rest

/-- UTF-16LE decode of a byte list with `errors='replace'`. -/
def utf16Replace (bytes : List Nat) : List Nat :=
  utf16ReplaceAux bytes.length bytes

/-! ## USN journal scanner (`UsnJrnlParser.iter_records`) -/

/-- A decoded USN record (`usnjrnl_parser.UsnRecord`); the FILETIME is kept
raw, the name as decoded code points. -/
structure UsnRecordM where
  record_length : Nat := 0
  major_version : Nat := 0
  minor_version : Nat := 0
  file_reference : Nat := 0
  parent_file_reference : Nat := 0
  usn : Nat := 0
  timestamp_raw : Nat := 0
  reason : Nat := 0
  source_info : Nat := 0
  security_id : Nat := 0
  file_attributes : Nat := 0
  filename_length : Nat := 0
  filename_offset : Nat := 0
  filename : List Nat := []
  extra_info1 : Nat := 0
  extra_info2 : Nat := 0
  deriving Repr, DecidableEq

/-- `UsnJrnlParser._parse_record` (and `_parse_v2_record` /
`_parse_v3_record` / `_parse_v4_record`). The caller always passes exactly
`record_length ≥ 60` bytes, so the fixed-field reads cannot raise. -/
def usnParseRecord (data : List Nat) : Option UsnRecordM :=
  if data.length < 60 then none
  else
    let record_length := leVal (slice data 0 4)
    let major := leVal (slice data 4 6)
    let minor := leVal (slice data 6 8)
    if major = 2 then
      let fnLen := leVal (slice data 56 58)
      let fnOff := leVal (slice data 58 60)
      let nameBytes := if fnOff + fnLen ≤ data.length then slice data fnOff (fnOff + fnLen) else []
      some { record_length := record_length, major_version := major, minor_version := minor
             file_reference := leVal (slice data 8 16)
             parent_file_reference := leVal (slice data 16 24)
             usn := leVal (slice data 24 32), timestamp_raw := leVal (slice data 32 40)
             reason := leVal (slice data 40 44), source_info := leVal (slice data 44 48)
             security_id := leVal (slice data 48 52), file_attributes := leVal (slice data 52 56)
             filename_length := fnLen, filename_offset := fnOff
             filename := utf16Replace nameBytes }
    else if major = 3 ∨ major = 4 then
      if data.length < 76 then none
      else
        let fnLen := leVal (slice data 72 74)
        let fnOff := leVal (slice data 74 76)
        let nameBytes := if fnOff + fnLen ≤ data.length then slice data fnOff (fnOff + fnLen) else []
        some { record_length := record_length, major_version := major, minor_version := minor
               file_reference := leVal (slice data 8 16), extra_info1 := leVal (slice data 16 24)
               parent_file_reference := leVal (slice data 24 32), extra_info2 := leVal (slice data 32 40)
               usn := leVal (slice data 40 48), timestamp_raw := leVal (slice data 48 56)
               reason := leVal (slice data 56 60), source_info := leVal (slice data 60 64)
               security_id := leVal (slice data 64 68), file_attributes := leVal (slice data 68 72)
               filename_length := fnLen, filename_offset := fnOff
               filename := utf16Replace nameBytes }
    else none

/-- The zero-skip scan `for i in range(0, len(buffer)-8, 8)`: first 8-byte
block index that is not all zero, or `len(buffer)` when the loop runs out. -/
def zeroScanAux (buffer : List Nat) : Nat → Nat → Nat
  | 0, _ => buffer.length
  | cnt + 1, i =>
    if slice buffer i (i + 8) ≠ List.replicate 8 0 then i
    else zeroScanAux buffer cnt (i + 8)

/-- `zero_end` before 8-byte alignment. -/
def zeroScan (buffer : List Nat) : Nat :=
  zeroScanAux buffer ((buffer.length - 8 + 7) / 8) 0

/-- The resync probe `for i in range(8, len(buffer)-8, 8)`: first 8-aligned
position holding a plausible header (length in `60..65536`, major in
`{2,3,4}`, minor 0). -/
def resyncScanAux (buffer : List Nat) : Nat → Nat → Option Nat
  | 0, _ => none
  | cnt + 1, i =>
    let pl := leVal (slice buffer i (i + 4))
    if (60 ≤ pl ∧ pl ≤ 65536) ∧
        (let major := leVal (slice buffer (i + 4) (i + 6))
         let minor := leVal (slice buffer (i + 6) (i + 8))
         (major = 2 ∨ major = 3 ∨ major = 4) ∧ minor = 0) then some i
    else resyncScanAux buffer cnt (i + 8)

/-- The resync probe over the whole buffer. -/
def resyncScan (buffer : List Nat) : Option Nat :=
  resyncScanAux buffer ((buffer.length - 16 + 7) / 8) 8

/-- Observable steps of `iter_records`: each carries the file position of
the buffer front (`pos`) and the number of bytes the step consumed. -/
inductive UsnEvent where
  | skipZeros (pos len : Nat)
  | deadZero (pos len : Nat)
  | resync (pos len : Nat)
  | tailKeep (pos len : Nat)
  | yield (pos len : Nat) (rec : UsnRecordM)
  | drop (pos len : Nat)
  deriving Repr, DecidableEq

/-- The inner `while len(buffer) >= MIN_RECORD_SIZE_V2` loop of
`iter_records`; returns the emitted events with the leftover buffer and its
file position. -/
def usnInner (skipZeros : Bool) : Nat → List Nat → Nat → List UsnEvent × List Nat × Nat
  | 0, buffer, pos => ([], buffer, pos)
  | fuel + 1, buffer, pos =>
    if buffer.length < 60 then ([], buffer, pos)
    else if skipZeros ∧ slice buffer 0 8 = List.replicate 8 0 then
      let zend := zeroScan buffer / 8 * 8
      if zend > 0 then
        let (evs, b, p) := usnInner skipZeros fuel (buffer.drop zend) (pos + zend)
        (.skipZeros pos zend :: evs, b, p)
      else ([.deadZero pos buffer.length], [], pos + buffer.length)
    else
      let rl := leVal (slice buffer 0 4)
      if rl < 60 ∨ rl > 65536 then
        match resyncScan buffer with
        | some i =>
          let (evs, b, p) := usnInner skipZeros fuel (buffer.drop i) (pos + i)
          (.resync pos i :: evs, b, p)
        | none =>
          let adv := buffer.length - 60
          let (evs, b, p) := usnInner skipZeros fuel (buffer.drop adv) (pos + adv)
          (.tailKeep pos adv :: evs, b, p)
      else if buffer.length < rl then ([], buffer, pos)
      else
        match usnParseRecord (buffer.take rl) with
        | some rec =>
          let (evs, b, p) := usnInner skipZeros fuel (buffer.drop rl) (pos + rl)
          (.yield pos rl rec :: evs, b, p)
        | none =>
          let (evs, b, p) := usnInner skipZeros fuel (buffer.drop rl) (pos + rl)
          (.drop pos rl :: evs, b, p)

/-- The outer chunked-read loop of `iter_records` (1 MiB chunks). -/
def usnOuter (skipZeros : Bool) : Nat → List Nat → List Nat → Nat → List UsnEvent
  | 0, _, _, _ => []
  | fuel + 1, buffer, rest, pos =>
    if rest.isEmpty then []
    else
      let chunk := rest.take 1048576
      let (evs, b, p) := usnInner skipZeros (fuel + 1) (buffer ++ chunk) pos
      evs ++ usnOuter skipZeros fuel b (rest.drop 1048576) p

/-- `UsnJrnlParser.iter_records(skip_zeros=True)` over a whole input file,
as the list of observable steps. -/
def usn_iter_records (file : List Nat) (fuel : Nat) : List UsnEvent :=
  usnOuter true fuel [] file 0

/-- The file positions at which records are yielded. -/
def yieldPositions (evs : List UsnEvent) : List Nat :=
  evs.filterMap fun e =>
    match e with
    | .yield p _ _ => some p
    | _ => none

/-- The benign-step condition for the alignment invariant: no
resync-failure tail-keep, no whole-buffer zero consumption, and every
consumed record length a multiple of 8. -/
def usnEventOk : UsnEvent → Bool
  | .tailKeep _ _ => false
  | .deadZero _ _ => false
  | .yield _ len _ => len % 8 == 0
  | .drop _ len => len % 8 == 0
  | _ => true

/-! ## $LogFile `$FILE_NAME` fallback scan (`LogFileParser._scan_for_filename`)

Python's `str.isprintable` consults the Unicode tables, so it enters the
model as a parameter `isprintable : Nat → Bool` on code points; every
definition below is uniform in it. -/

/-- The per-character test `c.isprintable() or c in ' .\t'`. -/
def scanCharOk (isprintable : Nat → Bool) (c : Nat) : Bool :=
  isprintable c || c == 32 || c == 46 || c == 9

/-- The full acceptance test `_scan_for_filename` performs at one probe
offset (name-length/namespace bytes, name fits, decoded name non-empty and
printable, parent-reference entry below `2^40`). -/
def scanCandidateOk (isprintable : Nat → Bool) (data : List Nat) (offset : Nat) : Bool :=
  let name_len := data.getD (offset + 0x40) 0
  let ns := data.getD (offset + 0x41) 0
  let name_end := offset + 0x42 + name_len * 2
  let fname := utf16Ignore (slice data (offset + 0x42) name_end)
  decide (1 ≤ name_len) && decide (name_len ≤ 255) && decide (ns ≤ 3) &&
  decide (name_end ≤ data.length) &&
  !fname.isEmpty && fname.all (scanCharOk isprintable) &&
  decide (leVal (slice data offset (offset + 8)) % 2 ^ 48 < 2 ^ 40)

/-- The loop `for offset in range(0, len(data) - 0x44, 8)` of
`_scan_for_filename`. A hit returns the accepted offset together with the
decoded name and the parent reference read there (the further fields the
code stores — timestamp and attributes — are likewise read at that
offset). -/
def scanForFilenameAux (isprintable : Nat → Bool) (data : List Nat) :
    Nat → Nat → Option (Nat × List Nat × Nat)
  | 0, _ => none
  | cnt + 1, offset =>
    if scanCandidateOk isprintable data offset then
      some (offset,
        utf16Ignore (slice data (offset + 0x42) (offset + 0x42 + (data.getD (offset + 0x40) 0) * 2)),
        leVal (slice data offset (offset + 8)))
    else scanForFilenameAux isprintable data cnt (offset + 8)

/-- `LogFileParser._scan_for_filename(record, data)`: `none` when nothing
is accepted (the record's filename stays empty). -/
def scan_for_filename (isprintable : Nat → Bool) (data : List Nat) :
    Option (Nat × List Nat × Nat) :=
  if data.length < 0x44 then none
  else scanForFilenameAux isprintable data ((data.length - 0x44 + 7) / 8) 0

/-- The probe offsets of the fallback scan: `0, 8, 16, …`, strictly below
`len(data) - 0x44`. -/
def scanProbeOffsets (data : List Nat) : List Nat :=
  List.range' 0 ((data.length - 0x44 + 7) / 8) 8

/-- The acceptance condition exactly as the claim words it: namespace byte
at most 3, name length 1..255, decoded UTF-16LE name fully printable, and
parent-reference entry portion below `2^40` — with no requirement that the
name be non-empty or lie within the payload. -/
def claimScanAccept (isprintable : Nat → Bool) (data : List Nat) (offset : Nat) : Bool :=
  let name_len := data.getD (offset + 0x40) 0
  let ns := data.getD (offset + 0x41) 0
  decide (1 ≤ name_len) && decide (name_len ≤ 255) && decide (ns ≤ 3) &&
  (utf16Ignore (slice data (offset + 0x42) (offset + 0x42 + name_len * 2))).all
    (scanCharOk isprintable) &&
  decide (leVal (slice data offset (offset + 8)) % 2 ^ 48 < 2 ^ 40)

/-! ## Unified timeline (`UnifiedAnalyzer._iter_all_records`)

The three source parsers are I/O-driven; their outputs enter the model as
the record lists they yield, with the string-rendered fields the analyzer
reads. An absent input path is `none`. -/

/-- An MFT record as `iter_entries_with_paths` yields it to the analyzer. -/
structure TLMftRecord where
  si_created : String
  si_modified : String
  filename : String
  full_path : String
  si_flags : Nat
  entry_number : Nat
  sequence_number : Nat
  parent_ref : Nat
  deriving Repr, DecidableEq

/-- A USN record as `iter_records` yields it to the analyzer, with its
rendered `event` / `file_attr_str` / reference-string properties. -/
structure TLUsnRecord where
  timestamp : String
  filename : String
  event : String
  file_attr_str : String
  file_ref_str : String
  parent_ref_str : String
  usn : Nat
  file_reference : Nat
  deriving Repr, DecidableEq

/-- A $LogFile record as `iter_records` yields it to the analyzer. -/
structure TLLogRecord where
  timestamp : String
  filename : String
  event : String
  file_reference : Nat
  parent_reference : Nat
  this_lsn : Nat
  deriving Repr, DecidableEq

/-- `analyzer.UnifiedRecord`. The `file_attr` slot takes the integer
`si_flags` in the MFT branch; its decimal rendering is kept. -/
structure UnifiedRecordM where
  timestamp : String := ""
  source : String := ""
  event : String := ""
  filename : String := ""
  full_path : String := ""
  file_attr : String := ""
  file_reference : String := ""
  parent_reference : String := ""
  extra_info : String := ""
  deriving Repr, DecidableEq

/-- The `FileCreate (SI)` unified record built from an MFT record. -/
def mftCreateEvent (r : TLMftRecord) : UnifiedRecordM :=
  { timestamp := r.si_created, source := "MFT", event := "FileCreate (SI)"
    filename := r.filename, full_path := r.full_path
    file_attr := Nat.repr r.si_flags
    file_reference := Nat.repr r.entry_number ++ "-" ++ Nat.repr r.sequence_number
    parent_reference := Nat.repr r.parent_ref }

/-- The `FileModify (SI)` unified record built from an MFT record. -/
def mftModifyEvent (r : TLMftRecord) : UnifiedRecordM :=
  { timestamp := r.si_modified, source := "MFT", event := "FileModify (SI)"
    filename := r.filename, full_path := r.full_path
    file_attr := Nat.repr r.si_flags
    file_reference := Nat.repr r.entry_number ++ "-" ++ Nat.repr r.sequence_number
    parent_reference := Nat.repr r.parent_ref }

/-- The MFT loop body of `_iter_all_records`: a create event when
`record.si_created` is truthy, then a modify event when `record.si_modified`
is truthy and differs from `si_created`. -/
def mftTimelineEvents (r : TLMftRecord) : List UnifiedRecordM :=
  (if r.si_created ≠ "" then [mftCreateEvent r] else []) ++
  (if r.si_modified ≠ "" ∧ r.si_modified ≠ r.si_created then [mftModifyEvent r] else [])

/-- The UsnJrnl loop body: one event per record; the full path is resolved
through the MFT-built cache only when an MFT path was supplied. -/
def usnTimelineEvent (hasMftPath : Bool) (pathOf : Nat → String) (r : TLUsnRecord) :
    UnifiedRecordM :=
  { timestamp := r.timestamp, source := "UsnJrnl", event := r.event
    filename := r.filename
    full_path := if hasMftPath then pathOf r.file_reference else ""
    file_attr := r.file_attr_str
    file_reference := r.file_ref_str, parent_reference := r.parent_ref_str
    extra_info := "USN:" ++ Nat.repr r.usn }

/-- The unified record built from a $LogFile record. -/
def logTimelineEvent (r : TLLogRecord) : UnifiedRecordM :=
  { timestamp := r.timestamp, source := "LogFile", event := r.event
    filename := r.filename
    file_reference := if r.file_reference ≠ 0 then Nat.repr r.file_reference else ""
    parent_reference := if r.parent_reference ≠ 0 then Nat.repr r.parent_reference else ""
    extra_info := "LSN:" ++ Nat.repr r.this_lsn }

/-- The LogFile loop body: an event only when the record's filename or
event label is truthy. -/
def logTimelineEvents (r : TLLogRecord) : List UnifiedRecordM :=
  if r.filename ≠ "" ∨ r.event ≠ "" then [logTimelineEvent r] else []

/-- `UnifiedAnalyzer._iter_all_records`: the three source loops run in
sequence — MFT, then UsnJrnl, then LogFile — each lazily appending its
events; nothing is sorted afterwards. -/
def iter_all_records (mft : Option (List TLMftRecord)) (usn : Option (List TLUsnRecord))
    (log : Option (List TLLogRecord)) (hasMftPath : Bool) (pathOf : Nat → String) :
    List UnifiedRecordM :=
  (match mft with
   | some rs => rs.flatMap mftTimelineEvents
   | none => []) ++
  (match usn with
   | some rs => rs.map (usnTimelineEvent hasMftPath pathOf)
   | none => []) ++
  (match log with
   | some rs => rs.flatMap logTimelineEvents
   | none => [])

/-! ## Concrete inputs for the claim theorems -/

/-- 16-bit little-endian encoder (for building test inputs). -/
def le16b (n : Nat) : List Nat := [n % 256, n / 256 % 256]

/-- 32-bit little-endian encoder (for building test inputs). -/
def le32b (n : Nat) : List Nat := [n % 256, n / 256 % 256, n / 65536 % 256, n / 16777216 % 256]

/-- A 1024-byte `FILE` entry whose fixup signature word (`AA BB` at offset
48) differs from the pre-fixup word at the tail of sector 1 (`00 00` at
510..512): a torn write by the spec's definition. Fixup offset 48, count 2,
attributes start at 56 with an immediate end marker, used size 60. -/
def entryC1 : List Nat :=
  [0x46, 0x49, 0x4C, 0x45] ++ le16b 48 ++ le16b 2 ++ List.replicate 8 0 ++
  le16b 7 ++ le16b 0 ++ le16b 56 ++ le16b 1 ++ le32b 60 ++ List.replicate 20 0 ++
  [0xAA, 0xBB, 0x01, 0x02] ++ List.replicate 4 0 ++
  [0xFF, 0xFF, 0xFF, 0xFF] ++ List.replicate (1024 - 60) 0

/-- A 68-byte resident `$FILE_NAME` content: parent reference 5, zero
timestamps and sizes, one-character name with the given namespace byte. -/
def fnContent (ns : Nat) (nameBytes : List Nat) : List Nat :=
  le32b 5 ++ le32b 0 ++ List.replicate 48 0 ++ le32b 0 ++ le32b 0 ++ [1, ns] ++ nameBytes

/-- A 92-byte resident `$FILE_NAME` attribute holding `fnContent`. -/
def fnAttr (ns : Nat) (nameBytes : List Nat) : List Nat :=
  le32b 0x30 ++ le32b 92 ++ [0, 0] ++ le16b 0 ++ le16b 0 ++ le16b 0 ++
  le32b 68 ++ le16b 24 ++ le16b 0 ++ fnContent ns nameBytes

/-- A 244-byte `FILE` entry with two `$FILE_NAME` attributes: first a
DOS-namespace name `D`, then a POSIX-namespace name `P`, and no Win32
name. -/
def entryC2 : List Nat :=
  [0x46, 0x49, 0x4C, 0x45] ++ le16b 0 ++ le16b 0 ++ List.replicate 8 0 ++
  le16b 3 ++ le16b 0 ++ le16b 56 ++ le16b 1 ++ le32b 256 ++ List.replicate 28 0 ++
  fnAttr 2 [68, 0] ++ fnAttr 0 [80, 0] ++ [0xFF, 0xFF, 0xFF, 0xFF]

/-- A $J stream input: one cluster-worth of data at LCN 0 reached through a
second data run (`+1` then `-1`), so the run is non-sparse with
`start_cluster = 0`. -/
def runsC4 : List Nat := [0x11, 1, 1, 0x11, 1, 0xFF, 0]

/-- A 122-byte $J stream: a valid 62-byte v2 USN record followed directly
by a valid 60-byte one, so the second record sits at offset 62. -/
def fileC6 : List Nat :=
  (le32b 62 ++ le16b 2 ++ le16b 0 ++ List.replicate 54 0) ++
  (le32b 60 ++ le16b 2 ++ le16b 0 ++ List.replicate 52 0)

/-- A 0x46-byte $LogFile payload whose offset-0 candidate has name length
1, namespace 0, parent reference 0 — but whose two name bytes `00 D8` are
a lone UTF-16 high surrogate, decoding (with `errors='ignore'`) to the
empty string. -/
def dataC7 : List Nat :=
  List.replicate 64 0 ++ [1, 0] ++ [0x00, 0xD8] ++ [0, 0]

/-- ASCII printability, a concrete instance of the abstract
`isprintable` parameter. -/
def pASCII : Nat → Bool := fun c => decide (32 ≤ c ∧ c < 127)

/-- A 512-byte image with no `55 AA` MBR tail whose first sector carries
`NTFS    ` at bytes 3..11. -/
def imgC9yes : List Nat := [0, 0, 0] ++ ntfsSig ++ List.replicate 501 1

/-- A 512-byte all-zero image: no MBR tail, no NTFS signature. -/
def imgC9no : List Nat := List.replicate 512 0

/-- A 20-byte non-resident attribute header (`data[8] = 1`), too short for
`_parse_non_resident_attr` to store anything. -/
def attrC10 : List Nat :=
  le32b 0x80 ++ le32b 20 ++ [1, 0] ++ le16b 64 ++ le16b 0 ++ le16b 0 ++ le32b 0

/-- A single well-formed 64-byte v2 USN record (length a multiple of 8). -/
def fileC6w : List Nat :=
  le32b 64 ++ le16b 2 ++ le16b 0 ++ List.replicate 56 0

/-- The absolute-path property: the string starts with a backslash. -/
def startsWithBackslash (s : String) : Prop := ∃ t, s = "\\" ++ t

/-! # Theorems -/

set_option maxRecDepth 10000 in
/-- C1: the spec requires that an entry whose pre-fixup sector-tail word
differs from the stored fixup signature word be rejected by
`MFTEntry.parse`. The code never compares the two: on `entryC1` — fixup
count 2, signature word `AA BB` at the fixup offset, tail word `00 00` at
bytes 510..512 — `parse` succeeds and `to_record` produces a record, so
the torn-write check the spec describes does not exist in
`_apply_fixup`. -/
theorem c1_fixup_mismatch_not_rejected :
    leVal (slice entryC1 6 8) = 2 ∧
    slice entryC1 510 512 ≠ slice entryC1 48 50 ∧
    (mftEntryParse entryC1).isSome = true ∧
    ((mftEntryParse entryC1).map (fun e => mftToRecord e 0)).isSome = true :=
  ⟨by decide, by decide, by decide, by decide⟩

theorem bestFilenameAux_some (attrs : List Attr) (b : Attr) :
    bestFilenameAux attrs (some b) = some ((attrs.find? isWin32Fn).getD b) := by
  induction attrs with
  | nil => rfl
  | cons a rest ih =>
    by_cases hty : a.type = 0x30
    · by_cases hns : fnNamespace a = 1 ∨ fnNamespace a = 3
      · have hw : isWin32Fn a = true := by
          simp [isWin32Fn, hty]
          rcases hns with h | h <;> simp [h]
        simp [bestFilenameAux, hty, hns, List.find?_cons, hw]
      · have hw : isWin32Fn a = false := by
          simp [isWin32Fn, hty]
          push_neg at hns
          exact hns
        simp [bestFilenameAux, hty, hns, hw, List.find?_cons, ih]
    · have hw : isWin32Fn a = false := by simp [isWin32Fn, hty]
      simp [bestFilenameAux, hty, hw, List.find?_cons, ih]

theorem bestFilenameAux_none (attrs : List Attr) :
    bestFilenameAux attrs none =
      (attrs.find? isWin32Fn).orElse (fun _ => attrs.find? isFnType) := by
  induction attrs with
  | nil => rfl
  | cons a rest ih =>
    by_cases hty : a.type = 0x30
    · by_cases hns : fnNamespace a = 1 ∨ fnNamespace a = 3
      · have hw : isWin32Fn a = true := by
          simp [isWin32Fn, hty]
          rcases hns with h | h <;> simp [h]
        simp [bestFilenameAux, hty, hns, List.find?_cons, hw, Option.orElse]
      · have hw : isWin32Fn a = false := by
          simp [isWin32Fn, hty]
          push_neg at hns
          exact hns
        have hf : isFnType a = true := by simp [isFnType, hty]
        rw [bestFilenameAux]
        simp only [hty, if_pos rfl]
        simp only [if_neg hns]
        by_cases hp : fnNamespace a = 0
        · simp [hp, bestFilenameAux_some, List.find?_cons, hw, hf, Option.orElse]
          cases h2 : rest.find? isWin32Fn <;> simp
        · simp [hp, bestFilenameAux_some, List.find?_cons, hw, hf, Option.orElse]
          cases h2 : rest.find? isWin32Fn <;> simp
    · have hw : isWin32Fn a = false := by simp [isWin32Fn, hty]
      have hf : isFnType a = false := by simp [isFnType, hty]
      simp [bestFilenameAux, hty, hw, hf, List.find?_cons, ih]

/-- C2 (amended): `to_record` picks the first Win32 or Win32+DOS
`$FILE_NAME` attribute if any exists (breaking there), and otherwise the
first `$FILE_NAME` attribute in on-disk order regardless of namespace —
the POSIX-over-DOS preference the claim describes is not implemented. -/
theorem c2_best_name_selection (e : MFTEntryM) (n : Nat) :
    (mftToRecord e n).filename =
      ((e.attributes.find? isWin32Fn).orElse
        (fun _ => e.attributes.find? isFnType)).elim [] fnFilename := by
  unfold mftToRecord
  rw [bestFilenameAux_none]
  cases h1 : (e.attributes.find? isWin32Fn).orElse (fun _ => e.attributes.find? isFnType) with
  | none =>
    cases h2 : firstAttrOfType e.attributes 0x10 <;>
      cases h3 : e.attributes.find? (fun a => a.type == 0x80 && a.name == ([] : List Nat)) <;>
        simp [fnFilename]
  | some a =>
    cases h2 : firstAttrOfType e.attributes 0x10 <;>
      cases h3 : e.attributes.find? (fun a => a.type == 0x80 && a.name == ([] : List Nat)) <;>
        simp [fnFilename]

set_option maxRecDepth 10000 in
/-- C2 counterexample: `entryC2` holds a DOS-namespace name `D` followed by
a POSIX-namespace name `P` and no Win32 name; the claim says the POSIX
name is selected, but `to_record` keeps the DOS name. -/
theorem c2_counterexample :
    (mftEntryParse entryC2).map
      (fun e => e.attributes.map (fun a => (fnNamespace a, fnFilename a))) =
        some [(2, [68]), (0, [80])] ∧
    (mftEntryParse entryC2).map (fun e => (mftToRecord e 64).filename) = some [68] ∧
    ([68] : List Nat) ≠ [80] :=
  ⟨by decide, by decide, by decide⟩

theorem leVal_append (xs ys : List Nat) :
    leVal (xs ++ ys) = leVal xs + 256 ^ xs.length * leVal ys := by
  induction xs with
  | nil => simp [leVal]
  | cons b rest ih =>
    simp [leVal, ih, pow_succ]
    ring

theorem leVal_lt (xs : List Nat) (h : ∀ b ∈ xs, b < 256) : leVal xs < 256 ^ xs.length := by
  induction xs with
  | nil => simp [leVal]
  | cons b rest ih =>
    have hb := h b (List.mem_cons_self b rest)
    have hr := ih (fun x hx => h x (List.mem_cons_of_mem _ hx))
    simp only [leVal, List.length_cons, pow_succ]
    nlinarith [hr, hb]

theorem runOffsetSigned_eq_signedLE (bytes : List Nat) (hne : bytes ≠ [])
    (hb : ∀ x ∈ bytes, x < 256) : runOffsetSigned bytes = signedLE bytes := by
  rcases (List.eq_nil_or_concat bytes) with h | ⟨init, b, rfl⟩
  · exact absurd h hne
  · simp only [List.concat_eq_append] at hne hb ⊢
    have hlast : (init ++ [b]).getD ((init ++ [b]).length - 1) 0 = b := by
      simp [List.getD_append_right]
    have hbb : b < 256 := hb b (by simp)
    have hinit : leVal init < 256 ^ init.length :=
      leVal_lt init (fun x hx => hb x (by simp [hx]))
    have hval : leVal (init ++ [b]) = leVal init + 256 ^ init.length * b := by
      rw [leVal_append]; simp [leVal]
    have hpow : 2 ^ ((init ++ [b]).length * 8 - 1) = 128 * 256 ^ init.length := by
      have h8 : (init ++ [b]).length * 8 - 1 = 7 + 8 * init.length := by
        simp [List.length_append]
        omega
      rw [h8, pow_add, pow_mul]
      norm_num
    have hiff : (b / 128 % 2 = 1) ↔ leVal (init ++ [b]) ≥ 2 ^ ((init ++ [b]).length * 8 - 1) := by
      rw [hpow, hval]
      constructor
      · intro h1
        have hb128 : 128 ≤ b := by omega
        have := Nat.mul_le_mul_left (256 ^ init.length) hb128
        omega
      · intro h1
        by_contra h2
        have hb127 : b ≤ 127 := by omega
        have := Nat.mul_le_mul_left (256 ^ init.length) hb127
        omega
    unfold runOffsetSigned signedLE
    rw [hlast]
    by_cases hmsb : b / 128 % 2 = 1
    · rw [if_pos hmsb, if_pos ?_]
      have := hiff.mp hmsb
      exact_mod_cast this
    · rw [if_neg hmsb, if_neg ?_]
      intro hcon
      apply hmsb
      apply hiff.mpr
      exact_mod_cast hcon

theorem c3_step (fuel : Nat) (tail : List Nat) (cur : Int) (header : Nat)
    (h0 : header ≠ 0) (hL : header % 16 ≠ 0)
    (hlen : 1 + header % 16 + header / 16 % 16 ≤ (header :: tail).length)
    (hb : ∀ b ∈ header :: tail, b < 256) :
    parseRunsAux (fuel + 1) (header :: tail) cur =
      if header / 16 % 16 = 0 then
        ⟨0, leVal (slice (header :: tail) 1 (1 + header % 16)), true⟩ ::
          parseRunsAux fuel ((header :: tail).drop (1 + header % 16 + header / 16 % 16)) cur
      else
        (⟨cur + signedLE (slice (header :: tail) (1 + header % 16)
            (1 + header % 16 + header / 16 % 16)),
          leVal (slice (header :: tail) 1 (1 + header % 16)), false⟩ : Run) ::
          parseRunsAux fuel ((header :: tail).drop (1 + header % 16 + header / 16 % 16))
            (cur + signedLE (slice (header :: tail) (1 + header % 16)
              (1 + header % 16 + header / 16 % 16))) := by
  have hbound : ¬(1 + header % 16 + header / 16 % 16 > (header :: tail).length) := by omega
  have hlen' : 1 + header % 16 + header / 16 % 16 ≤ tail.length + 1 := by
    simpa using hlen
  by_cases hO : header / 16 % 16 = 0
  · simp only [parseRunsAux, if_neg h0, if_neg hL, if_neg hbound, hO, if_pos]
    simp [hO]
    omega
  · have hOpos : header / 16 % 16 > 0 := Nat.pos_of_ne_zero hO
    have hslen : (slice (header :: tail) (1 + header % 16)
        (1 + header % 16 + header / 16 % 16)).length = header / 16 % 16 := by
      simp only [slice, List.length_take, List.length_drop]
      simp only [List.length_cons] at hlen
      omega
    have hne : slice (header :: tail) (1 + header % 16)
        (1 + header % 16 + header / 16 % 16) ≠ [] := by
      intro hcon
      rw [hcon] at hslen
      simp at hslen
      omega
    have hmem : ∀ x ∈ slice (header :: tail) (1 + header % 16)
        (1 + header % 16 + header / 16 % 16), x < 256 := by
      intro x hx
      apply hb
      exact List.mem_of_mem_drop (List.mem_of_mem_take hx)
    simp only [parseRunsAux, if_neg h0, if_neg hL, if_neg hbound, if_neg hO]
    rw [if_pos hOpos]
    rw [runOffsetSigned_eq_signedLE _ hne hmem]

/-- C3: decoding the seven run bytes `33 00 00 01 00 00 FF` with prior LCN
0 yields the single run `{start_lcn = -65536, length = 65536, sparse =
false}`, and in general one loop step of `_parse_data_runs` reads `L`
length bytes unsigned, accumulates an `O`-byte sign-extended
two's-complement little-endian offset onto the running LCN, and emits a
sparse run — leaving the running LCN unchanged — when `O = 0`. -/
theorem c3_data_run_decoding :
    parse_data_runs [0x33, 0, 0, 1, 0, 0, 0xFF] =
      [⟨-65536, 65536, false⟩] ∧
    ∀ (fuel : Nat) (tail : List Nat) (cur : Int) (header : Nat),
      header ≠ 0 → header % 16 ≠ 0 →
      1 + header % 16 + header / 16 % 16 ≤ (header :: tail).length →
      (∀ b ∈ header :: tail, b < 256) →
      parseRunsAux (fuel + 1) (header :: tail) cur =
        if header / 16 % 16 = 0 then
          ⟨0, leVal (slice (header :: tail) 1 (1 + header % 16)), true⟩ ::
            parseRunsAux fuel ((header :: tail).drop (1 + header % 16 + header / 16 % 16)) cur
        else
          (⟨cur + signedLE (slice (header :: tail) (1 + header % 16)
              (1 + header % 16 + header / 16 % 16)),
            leVal (slice (header :: tail) 1 (1 + header % 16)), false⟩ : Run) ::
            parseRunsAux fuel ((header :: tail).drop (1 + header % 16 + header / 16 % 16))
              (cur + signedLE (slice (header :: tail) (1 + header % 16)
                (1 + header % 16 + header / 16 % 16))) :=
  ⟨by decide, c3_step⟩

/-- C3 witness: one concrete non-sparse step (header `0x21`, length byte
`02`, offset bytes `05 00`, prior LCN 7). -/
theorem c3_witness : parseRunsAux 1 [0x21, 2, 5, 0] 7 = [⟨12, 2, false⟩] := by
  have h := c3_data_run_decoding.2 0 [2, 5, 0] 7 0x21 (by decide) (by decide)
    (by decide) (by decide)
  rw [h]
  decide

/-- C10 counterexample: a 20-byte non-resident attribute header is below
the 48-byte guard, so `_parse_non_resident_attr` returns without storing
`real_size` or `initialized_size` (or anything else) — they are left
absent, not set to `allocated_size` as the claim states for every header
shorter than 64 bytes. -/
theorem c10_counterexample :
    attrC10.length < 64 ∧
    (parseAttribute 0x80 attrC10).map (fun a => (a.non_resident, a.nonres)) =
      some (true, none) :=
  ⟨by decide, by decide⟩

/-- C10 (amended): for a non-resident attribute with at least 48 header
bytes, `real_size` and `initialized_size` copy `allocated_size` whenever
`start_vcn ≠ 0` or fewer than 64 bytes are present, and are read from
header bytes 48..64 exactly when `start_vcn = 0` and at least 64 bytes are
present; below 48 bytes no size field is stored at all. -/
theorem c10_nonresident_sizes (d : List Nat) (h : 48 ≤ d.length) :
    ∃ info, parseNonResident d = some info ∧
      info.allocated_size = leVal (slice d 40 48) ∧
      ((info.start_vcn ≠ 0 ∨ d.length < 64) →
        info.real_size = info.allocated_size ∧
        info.initialized_size = info.allocated_size) ∧
      (info.start_vcn = 0 ∧ 64 ≤ d.length →
        info.real_size = leVal (slice d 48 56) ∧
        info.initialized_size = leVal (slice d 56 64)) := by
  unfold parseNonResident
  rw [if_neg (by omega)]
  refine ⟨_, rfl, rfl, ?_, ?_⟩
  · intro hor
    have hc : ¬(leVal (slice d 16 24) = 0 ∧ d.length ≥ 64) := by
      rcases hor with h1 | h1
      · intro ⟨h2, _⟩; exact h1 h2
      · intro ⟨_, h2⟩; omega
    simp [hc]
  · intro ⟨h1, h2⟩
    have hc : leVal (slice d 16 24) = 0 ∧ d.length ≥ 64 := ⟨h1, h2⟩
    simp [hc]

/-- C10 witness: the amended statement at a concrete 64-byte header. -/
theorem c10_witness :
    48 ≤ (List.replicate 64 3 : List Nat).length ∧
    (∃ info, parseNonResident (List.replicate 64 3) = some info ∧
      info.allocated_size = leVal (slice (List.replicate 64 3) 40 48) ∧
      ((info.start_vcn ≠ 0 ∨ (List.replicate 64 3 : List Nat).length < 64) →
        info.real_size = info.allocated_size ∧
        info.initialized_size = info.allocated_size) ∧
      (info.start_vcn = 0 ∧ 64 ≤ (List.replicate 64 3 : List Nat).length →
        info.real_size = leVal (slice (List.replicate 64 3) 48 56) ∧
        info.initialized_size = leVal (slice (List.replicate 64 3) 56 64))) :=
  ⟨by decide, c10_nonresident_sizes (List.replicate 64 3) (by decide)⟩

theorem scanForFilenameAux_eq (p : Nat → Bool) (data : List Nat) :
    ∀ (cnt offset : Nat),
      scanForFilenameAux p data cnt offset =
        ((List.range' offset cnt 8).find? (scanCandidateOk p data)).map
          (fun o => (o,
            utf16Ignore (slice data (o + 0x42) (o + 0x42 + (data.getD (o + 0x40) 0) * 2)),
            leVal (slice data o (o + 8)))) := by
  intro cnt
  induction cnt with
  | zero => intro offset; rfl
  | succ n ih =>
    intro offset
    rw [List.range'_succ]
    by_cases h : scanCandidateOk p data offset
    · simp [scanForFilenameAux, h, List.find?_cons]
    · simp only [scanForFilenameAux, h, if_neg]
      rw [List.find?_cons_of_neg _ (by simp [h])]
      exact ih (offset + 8)

/-- C7 (amended): the fallback scan probes the 8-aligned offsets strictly
below `len(data) - 0x44` in order and accepts the first candidate whose
name-length byte is 1..255, namespace byte at most 3, whose name lies
within the payload, whose decoded (`errors='ignore'`) UTF-16LE name is
non-empty with every character printable (or space, dot, tab), and whose
parent-reference entry portion is below `2^40` — the claim's version
omits the in-payload and non-emptiness conditions. -/
theorem c7_scan_first_match (p : Nat → Bool) (data : List Nat) :
    scan_for_filename p data =
      ((scanProbeOffsets data).find? (scanCandidateOk p data)).map
        (fun o => (o,
          utf16Ignore (slice data (o + 0x42) (o + 0x42 + (data.getD (o + 0x40) 0) * 2)),
          leVal (slice data o (o + 8)))) ∧
    ∀ o, scanCandidateOk p data o = true ↔
      (1 ≤ data.getD (o + 0x40) 0 ∧ data.getD (o + 0x40) 0 ≤ 255 ∧
       data.getD (o + 0x41) 0 ≤ 3 ∧
       o + 0x42 + data.getD (o + 0x40) 0 * 2 ≤ data.length ∧
       utf16Ignore (slice data (o + 0x42) (o + 0x42 + data.getD (o + 0x40) 0 * 2)) ≠ [] ∧
       (∀ c ∈ utf16Ignore (slice data (o + 0x42) (o + 0x42 + data.getD (o + 0x40) 0 * 2)),
         scanCharOk p c = true) ∧
       leVal (slice data o (o + 8)) % 2 ^ 48 < 2 ^ 40) := by
  constructor
  · unfold scan_for_filename scanProbeOffsets
    by_cases h : data.length < 0x44
    · rw [if_pos h]
      have : (data.length - 0x44 + 7) / 8 = 0 := by omega
      rw [this]
      rfl
    · rw [if_neg h]
      exact scanForFilenameAux_eq p data _ 0
  · intro o
    simp only [scanCandidateOk, Bool.and_eq_true, decide_eq_true_eq, Bool.not_eq_true',
      List.isEmpty_eq_false, List.all_eq_true, ne_eq]
    constructor
    · rintro ⟨⟨⟨⟨⟨⟨h1, h2⟩, h3⟩, h4⟩, h5⟩, h6⟩, h7⟩
      exact ⟨h1, h2, h3, h4, by simpa using h5, h6, h7⟩
    · rintro ⟨h1, h2, h3, h4, h5, h6, h7⟩
      exact ⟨⟨⟨⟨⟨⟨h1, h2⟩, h3⟩, h4⟩, by simpa using h5⟩, h6⟩, h7⟩

set_option maxRecDepth 4000 in
/-- C7 counterexample: on `dataC7` the offset-0 candidate satisfies every
condition the claim lists (namespace 0, name length 1, vacuously printable
decoded name, parent entry 0), yet the scan accepts nothing, because the
two name bytes are a lone surrogate that decodes to the empty string. -/
theorem c7_counterexample :
    claimScanAccept pASCII dataC7 0 = true ∧
    0 ∈ scanProbeOffsets dataC7 ∧
    scan_for_filename pASCII dataC7 = none :=
  ⟨by decide, by decide, by decide⟩

theorem sparseFill_eq (cs r : Nat) (hr : 0 < r) :
    ∀ (cnt written : Nat),
      sparseFill cs r cnt written =
        ((List.replicate (cnt * cs) 0).take (r - written),
         written + ((List.replicate (cnt * cs) 0).take (r - written)).length) := by
  intro cnt
  induction cnt with
  | zero => intro written; simp [sparseFill]
  | succ n ih =>
    intro written
    rw [sparseFill]
    rw [if_pos hr]
    have hsucc : (n + 1) * cs = cs + n * cs := by ring
    rw [hsucc, List.replicate_add, List.take_append_eq_append_take,
      List.length_replicate, List.take_replicate]
    by_cases hw : r ≤ written
    · rw [if_pos hw]
      have h0 : r - written = 0 := by omega
      simp [h0]
    · rw [if_neg hw]
      by_cases hrem : r - written < cs
      · rw [if_pos hrem]
        rw [ih (written + (r - written))]
        have h1 : r - (written + (r - written)) = 0 := by omega
        rw [h1]
        have h2 : min (r - written) cs = r - written := by omega
        have h3 : r - written - cs = 0 := by omega
        simp [h2, h3]
      · rw [if_neg hrem]
        rw [ih (written + cs)]
        have h2 : min (r - written) cs = cs := by omega
        have h5 : r - (written + cs) = r - written - cs := by omega
        simp only [h2, h5]
        rw [Prod.mk.injEq]
        refine ⟨rfl, ?_⟩
        simp
        omega

theorem clusterCopy_eq (rc : Int → List Nat) (r : Nat) (start : Int) (hr : 0 < r) :
    ∀ (cnt i written : Nat),
      clusterCopy rc r start cnt i written =
        (((List.range' i cnt).flatMap (fun j => rc (start + j))).take (r - written),
         written +
           (((List.range' i cnt).flatMap (fun j => rc (start + j))).take (r - written)).length) := by
  intro cnt
  induction cnt with
  | zero => intro i written; simp [clusterCopy]
  | succ n ih =>
    intro i written
    rw [clusterCopy, List.range'_succ]
    simp only [List.flatMap_cons]
    rw [List.take_append_eq_append_take]
    by_cases hw : r ≤ written
    · rw [if_pos ⟨hr, hw⟩]
      have h0 : r - written = 0 := by omega
      simp [h0]
    · rw [if_neg (by intro ⟨_, h⟩; exact hw h), if_pos hr]
      by_cases hrem : r - written < (rc (start + i)).length
      · rw [if_pos hrem]
        rw [ih (i + 1) (written + (r - written))]
        have h1 : r - (written + (r - written)) = 0 := by omega
        have h3 : r - written - (rc (start + i)).length = 0 := by omega
        rw [h1, h3]
        rw [Prod.mk.injEq]
        refine ⟨by simp, ?_⟩
        simp
        omega
      · rw [if_neg hrem]
        rw [ih (i + 1) (written + (rc (start + i)).length)]
        have h5 : r - (written + (rc (start + i)).length) =
            r - written - (rc (start + i)).length := by
          omega
        rw [h5]
        have h6 : (rc (start + i)).take (r - written) = rc (start + i) :=
          List.take_of_length_le (by omega)
        rw [h6]
        rw [Prod.mk.injEq]
        refine ⟨rfl, ?_⟩
        simp
        omega

theorem extractRunsAux_eq (cs : Nat) (rc : Int → List Nat) (r : Nat) (hr : 0 < r) :
    ∀ (runs : List Run) (written : Nat),
      extractRunsAux cs rc r false runs written =
        (runs.flatMap (runExpansion cs rc)).take (r - written) := by
  intro runs
  induction runs with
  | nil => intro written; simp [extractRunsAux]
  | cons run rest ih =>
    intro written
    rw [extractRunsAux]
    simp only [List.flatMap_cons]
    rw [List.take_append_eq_append_take]
    by_cases hw : r ≤ written
    · rw [if_pos ⟨hr, hw⟩]
      have h0 : r - written = 0 := by omega
      simp [h0]
    · rw [if_neg (by intro ⟨_, h⟩; exact hw h)]
      by_cases hz : run.sparse ∨ run.start_cluster = 0
      · rw [if_pos hz]
        simp only [Bool.false_eq_true, if_false]
        rw [sparseFill_eq cs r hr run.length written]
        rw [ih]
        unfold runExpansion
        rw [if_pos hz]
        congr 1
        · simp [List.length_take]
          omega
      · rw [if_neg hz]
        rw [clusterCopy_eq rc r run.start_cluster hr run.length 0 written]
        rw [ih]
        unfold runExpansion
        rw [if_neg hz]
        rw [← List.range_eq_range']
        congr 1
        · simp [List.length_take]
          omega

/-- C4 (amended): with the collected run list, a positive `real_size` `r`
and `skip_sparse=False` (the $J path), the extracted byte stream is
exactly the per-run expansion truncated to `r` bytes — where a run flagged
sparse, **or any run whose start LCN is 0**, contributes
`length × cluster_size` zero bytes, and every other run contributes its
clusters' contents; the claim's version reads cluster contents for every
non-sparse run. -/
theorem c4_j_stream_extraction (cs : Nat) (rc : Int → List Nat) (runs : List Run)
    (r : Nat) (hr : 0 < r) :
    extract_from_data_runs cs rc runs r false =
      (runs.flatMap (runExpansion cs rc)).take r := by
  unfold extract_from_data_runs
  rw [extractRunsAux_eq cs rc r hr runs 0]
  simp

/-- C4 witness: the amended statement at a concrete mixed run list. -/
theorem c4_witness :
    (0 < 9) ∧
    extract_from_data_runs 2 (fun c => [c.toNat * 10 + 1, c.toNat * 10 + 2])
      [⟨1, 1, false⟩, ⟨0, 2, true⟩, ⟨3, 2, false⟩] 9 false =
      (([⟨1, 1, false⟩, ⟨0, 2, true⟩, ⟨3, 2, false⟩] : List Run).flatMap
        (runExpansion 2 (fun c => [c.toNat * 10 + 1, c.toNat * 10 + 2]))).take 9 :=
  ⟨by decide, c4_j_stream_extraction 2 _ _ 9 (by decide)⟩

/-- C4 counterexample: `_parse_data_runs` can produce a non-sparse run at
LCN 0 (offsets `+1` then `-1`); for that run the extractor writes zero
bytes, not the contents of cluster 0, so a non-sparse run does not always
contribute its referenced clusters. -/
theorem c4_counterexample :
    parse_data_runs runsC4 = [⟨1, 1, false⟩, ⟨0, 1, false⟩] ∧
    extract_from_data_runs 4 (fun _ => [7, 7, 7, 7]) [⟨0, 1, false⟩] 4 false =
      [0, 0, 0, 0] ∧
    ([0, 0, 0, 0] : List Nat) ≠ [7, 7, 7, 7] :=
  ⟨by decide, by decide, by decide⟩

theorem lookup_mem {cache : List (Nat × String)} {k : Nat} {v : String}
    (h : cache.lookup k = some v) : (k, v) ∈ cache := by
  induction cache with
  | nil => simp [List.lookup] at h
  | cons kv rest ih =>
    rw [List.lookup] at h
    by_cases hk : k == kv.1
    · rw [hk] at h
      simp at h
      have : k = kv.1 := by simpa using hk
      subst this
      rw [← h]
      exact List.mem_cons_self _ _
    · rw [Bool.not_eq_true] at hk
      rw [hk] at h
      exact List.mem_cons_of_mem _ (ih h)

theorem getPathAux_abs (nm : List (Nat × String)) (pm : List (Nat × Nat)) :
    ∀ (fuel entry : Nat) (visited : List Nat) (cache : List (Nat × String)),
      (∀ kv ∈ cache, startsWithBackslash kv.2) →
      (∀ kv ∈ (getPathAux nm pm fuel entry visited cache).2, startsWithBackslash kv.2) ∧
      ((getPathAux nm pm fuel entry visited cache).1 = "" ∨
        startsWithBackslash (getPathAux nm pm fuel entry visited cache).1) := by
  intro fuel
  induction fuel with
  | zero =>
    intro entry visited cache hc
    refine ⟨hc, Or.inl ?_⟩
    rfl
  | succ n ih =>
    intro entry visited cache hc
    rw [getPathAux]
    cases hl : cache.lookup entry with
    | some p =>
      refine ⟨hc, Or.inr ?_⟩
      exact hc (entry, p) (lookup_mem hl)
    | none =>
      cases hn : nm.lookup entry with
      | none =>
        refine ⟨hc, Or.inl ?_⟩
        rfl
      | some name =>
        by_cases hv : entry ∈ visited
        · simp only [if_pos hv]
          exact ⟨hc, Or.inl trivial⟩
        · simp only [if_neg hv]
          by_cases h5 : entry = 5
          · simp only [if_pos h5]
            refine ⟨?_, Or.inr ⟨"", rfl⟩⟩
            intro kv hkv
            rcases List.mem_cons.mp hkv with h | h
            · rw [h]; exact ⟨"", rfl⟩
            · exact hc kv h
          · simp only [if_neg h5]
            by_cases hp : (pm.lookup entry).getD 0 = 5 ∨ (pm.lookup entry).getD 0 = entry
            · simp only [if_pos hp]
              refine ⟨?_, Or.inr ⟨name, rfl⟩⟩
              intro kv hkv
              rcases List.mem_cons.mp hkv with h | h
              · rw [h]; exact ⟨name, rfl⟩
              · exact hc kv h
            · simp only [if_neg hp]
              obtain ⟨ihc, ihp⟩ := ih ((pm.lookup entry).getD 0) (entry :: visited) cache hc
              rcases hrec : getPathAux nm pm n ((pm.lookup entry).getD 0) (entry :: visited) cache
                with ⟨pp, cache'⟩
              rw [hrec] at ihc ihp
              simp only at ihc ihp ⊢
              have habs : startsWithBackslash
                  (if pp ≠ "" then pp ++ "\\" ++ name else "\\" ++ name) := by
                by_cases hpp : pp = ""
                · simp [hpp]
                  exact ⟨name, rfl⟩
                · rw [if_pos hpp]
                  rcases ihp with h | ⟨t, ht⟩
                  · exact absurd h hpp
                  · refine ⟨t ++ ("\\" ++ name), ?_⟩
                    rw [ht]
                    simp [String.append_assoc]
              refine ⟨?_, Or.inr habs⟩
              intro kv hkv
              rcases List.mem_cons.mp hkv with h | h
              · rw [h]; exact habs
              · exact ihc kv h

theorem buildPathCacheAux_abs (nm : List (Nat × String)) (pm : List (Nat × Nat)) (fuel : Nat) :
    ∀ (ks : List Nat) (cache : List (Nat × String)),
      (∀ kv ∈ cache, startsWithBackslash kv.2) →
      ∀ kv ∈ buildPathCacheAux nm pm fuel ks cache, startsWithBackslash kv.2 := by
  intro ks
  induction ks with
  | nil => intro cache hc; exact hc
  | cons k rest ih =>
    intro cache hc
    rw [buildPathCacheAux]
    exact ih _ (getPathAux_abs nm pm fuel k [] cache hc).1

/-- C5 (amended): `parse_file_reference` masks the low 48 bits, so the
entry number is below `2^48` (not `2^40` as claimed), and after
`build_path_cache` completes every cached path starts with a backslash. -/
theorem c5_reference_and_paths :
    (∀ ref : Nat, (parse_file_reference ref).1 < 2 ^ 48) ∧
    (∀ (nm : List (Nat × String)) (pm : List (Nat × Nat)),
      ∀ kv ∈ build_path_cache nm pm, startsWithBackslash kv.2) := by
  constructor
  · intro ref
    exact Nat.mod_lt _ (by norm_num)
  · intro nm pm
    exact buildPathCacheAux_abs nm pm (nm.length + 1) (nm.map Prod.fst) [] (by simp)

/-- C5 witness: the root path cached for entry 5. -/
theorem c5_witness : startsWithBackslash ("\\" : String) :=
  c5_reference_and_paths.2 [(5, "x")] [] (5, "\\") (by decide)

/-- C5 counterexample: the reference `2^47` has entry number `2^47`, which
is not below `2^40`. -/
theorem c5_counterexample :
    (parse_file_reference (2 ^ 47)).1 = 2 ^ 47 ∧ ¬(2 ^ 47 < 2 ^ 40) :=
  ⟨by decide, by decide⟩



theorem logTimelineEvents_filter (l : List TLLogRecord) :
    l.flatMap logTimelineEvents =
      (l.filter (fun r => !(r.filename == "" && r.event == ""))).map logTimelineEvent := by
  induction l with
  | nil => rfl
  | cons r rest ih =>
    rw [List.flatMap_cons, List.filter_cons]
    by_cases h : r.filename ≠ "" ∨ r.event ≠ ""
    · have hb : (!(r.filename == "" && r.event == "")) = true := by
        simp only [Bool.not_eq_true', Bool.and_eq_false_iff]
        rcases h with h | h
        · exact Or.inl (by simpa using h)
        · exact Or.inr (by simpa using h)
      rw [if_pos hb]
      rw [logTimelineEvents, if_pos h, List.map_cons, ih]
      rfl
    · have hb : (!(r.filename == "" && r.event == "")) = false := by
        push_neg at h
        simp [h.1, h.2]
      rw [if_neg (by simp [hb])]
      rw [logTimelineEvents, if_neg h, ih]
      rfl

/-- C8: with all three inputs present, the unified iterator is exactly the
concatenation — MFT events (a create per record with truthy `si_created`,
then a modify only when `si_modified` is truthy and differs), then one
event per USN record, then LogFile events exactly for records whose
filename or event label is truthy — and its source column is the ordered
block `MFT… UsnJrnl… LogFile…`, so no global sort is applied. -/
theorem c8_timeline_order (m : List TLMftRecord) (u : List TLUsnRecord)
    (l : List TLLogRecord) (hp : Bool) (pathOf : Nat → String) :
    iter_all_records (some m) (some u) (some l) hp pathOf =
      m.flatMap (fun r =>
        (if r.si_created ≠ "" then [mftCreateEvent r] else []) ++
        (if r.si_modified ≠ "" ∧ r.si_modified ≠ r.si_created then [mftModifyEvent r] else [])) ++
      u.map (usnTimelineEvent hp pathOf) ++
      (l.filter (fun r => !(r.filename == "" && r.event == ""))).map logTimelineEvent ∧
    (iter_all_records (some m) (some u) (some l) hp pathOf).map UnifiedRecordM.source =
      List.replicate (m.flatMap mftTimelineEvents).length "MFT" ++
      List.replicate u.length "UsnJrnl" ++
      List.replicate (l.flatMap logTimelineEvents).length "LogFile" := by
  have hiter : iter_all_records (some m) (some u) (some l) hp pathOf =
      m.flatMap mftTimelineEvents ++ u.map (usnTimelineEvent hp pathOf) ++
      l.flatMap logTimelineEvents := rfl
  constructor
  · rw [hiter, logTimelineEvents_filter]
    rfl
  · rw [hiter, List.map_append, List.map_append]
    have hm : (m.flatMap mftTimelineEvents).map UnifiedRecordM.source =
        List.replicate (m.flatMap mftTimelineEvents).length "MFT" := by
      have hmem : ∀ b ∈ (m.flatMap mftTimelineEvents).map UnifiedRecordM.source, b = "MFT" := by
        intro b hb
        rw [List.mem_map] at hb
        obtain ⟨ev, hev, rfl⟩ := hb
        rw [List.mem_flatMap] at hev
        obtain ⟨r, _, hev⟩ := hev
        rw [mftTimelineEvents, List.mem_append] at hev
        rcases hev with h | h
        · split at h
          · rw [List.mem_singleton] at h
            subst h
            rfl
          · simp at h
        · split at h
          · rw [List.mem_singleton] at h
            subst h
            rfl
          · simp at h
      rw [List.eq_replicate_of_mem hmem, List.length_map]
    have hu : (u.map (usnTimelineEvent hp pathOf)).map UnifiedRecordM.source =
        List.replicate u.length "UsnJrnl" := by
      have hmem : ∀ b ∈ (u.map (usnTimelineEvent hp pathOf)).map UnifiedRecordM.source,
          b = "UsnJrnl" := by
        intro b hb
        rw [List.mem_map] at hb
        obtain ⟨ev, hev, rfl⟩ := hb
        rw [List.mem_map] at hev
        obtain ⟨r, _, rfl⟩ := hev
        rfl
      rw [List.eq_replicate_of_mem hmem, List.length_map, List.length_map]
    have hl : (l.flatMap logTimelineEvents).map UnifiedRecordM.source =
        List.replicate (l.flatMap logTimelineEvents).length "LogFile" := by
      have hmem : ∀ b ∈ (l.flatMap logTimelineEvents).map UnifiedRecordM.source,
          b = "LogFile" := by
        intro b hb
        rw [List.mem_map] at hb
        obtain ⟨ev, hev, rfl⟩ := hb
        rw [List.mem_flatMap] at hev
        obtain ⟨r, _, hev⟩ := hev
        rw [logTimelineEvents] at hev
        split at hev
        · rw [List.mem_singleton] at hev
          subst hev
          rfl
        · simp at hev
      rw [List.eq_replicate_of_mem hmem, List.length_map]
    rw [hm, hu, hl]



theorem slice_take (l : List Nat) (a b m : Nat) (h : b ≤ m) :
    slice (l.take m) a b = slice l a b := by
  unfold slice
  rw [List.drop_take, List.take_take]
  congr 1
  omega

theorem imageRead_zero (image : List Nat) : imageRead image 0 512 = image.take 512 := by
  simp [imageRead, slice]

theorem parseBootSector_zero_none (image : List Nat)
    (hsig : slice image 3 11 ≠ ntfsSig) : parseBootSector image 0 = .ok none := by
  simp only [parseBootSector, imageRead_zero]
  rw [slice_take image 3 11 512 (by omega)]
  rw [if_pos hsig]

theorem parseBootSector_zero_some (image : List Nat) (h : 512 ≤ image.length)
    (hsig : slice image 3 11 = ntfsSig) :
    ∃ p, parseBootSector image 0 = .ok (some p) ∧ p.offset = 0 := by
  simp only [parseBootSector, imageRead_zero]
  rw [slice_take image 3 11 512 (by omega)]
  rw [if_neg (by simp [hsig])]
  have hlen : (image.take 512).length = 512 := by
    rw [List.length_take]
    omega
  have h16 : unpack16 (image.take 512) 0x0B = some (leVal (slice (image.take 512) 0x0B 0x0D)) := by
    unfold unpack16
    rw [if_pos]
    unfold slice
    rw [List.length_take, List.length_drop, hlen]
    omega
  have h8a : pyIndex (image.take 512) 0x0D = some ((image.take 512).getD 0x0D 0) := by
    unfold pyIndex
    rw [if_pos (by omega)]
  have h64 : unpack64 (image.take 512) 0x30 = some (leVal (slice (image.take 512) 0x30 0x38)) := by
    unfold unpack64
    rw [if_pos]
    unfold slice
    rw [List.length_take, List.length_drop, hlen]
    omega
  have h8b : pyIndex (image.take 512) 0x40 = some ((image.take 512).getD 0x40 0) := by
    unfold pyIndex
    rw [if_pos (by omega)]
  rw [h16, h8a, h64, h8b]
  exact ⟨_, rfl, rfl⟩

/-- C9: when the first sector does not end in `55 AA`,
`find_ntfs_partitions` probes offset 0 directly: it returns a single
partition at offset 0 exactly when bytes 3..11 spell `NTFS    `, and an
empty list otherwise, for every possible content of the MBR entry table
and GPT header region. -/
theorem c9_direct_probe (image : List Nat) (h512 : 512 ≤ image.length)
    (hmbr : slice image 510 512 ≠ [0x55, 0xAA]) :
    (slice image 3 11 = ntfsSig →
      ∃ p, find_ntfs_partitions image = .ok [p] ∧ p.offset = 0) ∧
    (slice image 3 11 ≠ ntfsSig → find_ntfs_partitions image = .ok []) := by
  have hcond : slice (imageRead image 0 512) 510 512 ≠ [0x55, 0xAA] := by
    rw [imageRead_zero, slice_take image 510 512 512 (by omega)]
    exact hmbr
  constructor
  · intro hsig
    obtain ⟨p, hp, hoff⟩ := parseBootSector_zero_some image h512 hsig
    refine ⟨p, ?_, hoff⟩
    unfold find_ntfs_partitions
    rw [if_pos hcond, hp]
  · intro hsig
    unfold find_ntfs_partitions
    rw [if_pos hcond, parseBootSector_zero_none image hsig]

set_option maxRecDepth 10000 in
/-- C9 witness: both branches at concrete 512-byte images. -/
theorem c9_witness :
    (512 ≤ imgC9yes.length ∧ slice imgC9yes 510 512 ≠ [0x55, 0xAA] ∧
      slice imgC9yes 3 11 = ntfsSig ∧
      ∃ p, find_ntfs_partitions imgC9yes = .ok [p] ∧ p.offset = 0) ∧
    (512 ≤ imgC9no.length ∧ slice imgC9no 510 512 ≠ [0x55, 0xAA] ∧
      slice imgC9no 3 11 ≠ ntfsSig ∧
      find_ntfs_partitions imgC9no = .ok []) :=
  ⟨⟨by decide, by decide, by decide,
    (c9_direct_probe imgC9yes (by decide) (by decide)).1 (by decide)⟩,
   ⟨by decide, by decide, by decide,
    (c9_direct_probe imgC9no (by decide) (by decide)).2 (by decide)⟩⟩



theorem resyncScanAux_mod (buffer : List Nat) :
    ∀ (cnt i j : Nat), resyncScanAux buffer cnt i = some j → j % 8 = i % 8 := by
  intro cnt
  induction cnt with
  | zero => intro i j h; simp [resyncScanAux] at h
  | succ n ih =>
    intro i j h
    rw [resyncScanAux] at h
    split at h
    · have : i = j := by injection h
      omega
    · have := ih (i + 8) j h
      omega

theorem resyncScan_mod (buffer : List Nat) (j : Nat) (h : resyncScan buffer = some j) :
    j % 8 = 0 := by
  have := resyncScanAux_mod buffer ((buffer.length - 16 + 7) / 8) 8 j h
  omega

theorem usnInner_aligned (skipZ : Bool) :
    ∀ (fuel : Nat) (buffer : List Nat) (pos : Nat)
      (evs : List UsnEvent) (b : List Nat) (p : Nat),
      usnInner skipZ fuel buffer pos = (evs, b, p) →
      pos % 8 = 0 →
      (∀ e ∈ evs, usnEventOk e = true) →
      (∀ q rl rec, UsnEvent.yield q rl rec ∈ evs → q % 8 = 0) ∧ p % 8 = 0 := by
  intro fuel
  induction fuel with
  | zero =>
    intro buffer pos evs b p heq hpos hok
    rw [usnInner] at heq
    obtain ⟨rfl, rfl, rfl⟩ : ([] : List UsnEvent) = evs ∧ buffer = b ∧ pos = p := by
      injection heq with h1 h2
      injection h2 with h2 h3
      exact ⟨h1, h2, h3⟩
    exact ⟨by intro q rl rec h; simp at h, hpos⟩
  | succ n ih =>
    intro buffer pos evs b p heq hpos hok
    rw [usnInner] at heq
    by_cases hlen : buffer.length < 60
    · rw [if_pos hlen] at heq
      obtain ⟨rfl, rfl, rfl⟩ : ([] : List UsnEvent) = evs ∧ buffer = b ∧ pos = p := by
        injection heq with h1 h2
        injection h2 with h2 h3
        exact ⟨h1, h2, h3⟩
      exact ⟨by intro q rl rec h; simp at h, hpos⟩
    · rw [if_neg hlen] at heq
      by_cases hz : skipZ ∧ slice buffer 0 8 = List.replicate 8 0
      · rw [if_pos hz] at heq
        by_cases hzend : zeroScan buffer / 8 * 8 > 0
        · rw [if_pos hzend] at heq
          rcases hrec : usnInner skipZ n (buffer.drop (zeroScan buffer / 8 * 8))
              (pos + zeroScan buffer / 8 * 8) with ⟨evs', b', p'⟩
          rw [hrec] at heq
          obtain ⟨rfl, rfl, rfl⟩ :
              UsnEvent.skipZeros pos (zeroScan buffer / 8 * 8) :: evs' = evs ∧ b' = b ∧ p' = p := by
            injection heq with h1 h2
            injection h2 with h2 h3
            exact ⟨h1, h2, h3⟩
          have hpos' : (pos + zeroScan buffer / 8 * 8) % 8 = 0 := by
            have : zeroScan buffer / 8 * 8 % 8 = 0 := Nat.mul_mod_left _ 8
            omega
          obtain ⟨hy, hp⟩ := ih _ _ evs' b' p' hrec hpos'
            (fun e he => hok e (List.mem_cons_of_mem _ he))
          refine ⟨?_, hp⟩
          intro q rl rec h
          rcases List.mem_cons.mp h with h | h
          · simp at h
          · exact hy q rl rec h
        · rw [if_neg hzend] at heq
          obtain ⟨rfl, rfl, rfl⟩ :
              [UsnEvent.deadZero pos buffer.length] = evs ∧ ([] : List Nat) = b ∧
                pos + buffer.length = p := by
            injection heq with h1 h2
            injection h2 with h2 h3
            exact ⟨h1, h2, h3⟩
          have := hok _ (List.mem_cons_self _ _)
          simp [usnEventOk] at this
      · rw [if_neg hz] at heq
        by_cases hrl : leVal (slice buffer 0 4) < 60 ∨ leVal (slice buffer 0 4) > 65536
        · rw [if_pos hrl] at heq
          cases hres : resyncScan buffer with
          | some i =>
            rw [hres] at heq
            simp only [] at heq
            rcases hrec : usnInner skipZ n (buffer.drop i) (pos + i) with ⟨evs', b', p'⟩
            rw [hrec] at heq
            obtain ⟨rfl, rfl, rfl⟩ :
                UsnEvent.resync pos i :: evs' = evs ∧ b' = b ∧ p' = p := by
              injection heq with h1 h2
              injection h2 with h2 h3
              exact ⟨h1, h2, h3⟩
            have hpos' : (pos + i) % 8 = 0 := by
              have := resyncScan_mod buffer i hres
              omega
            obtain ⟨hy, hp⟩ := ih _ _ evs' b' p' hrec hpos'
              (fun e he => hok e (List.mem_cons_of_mem _ he))
            refine ⟨?_, hp⟩
            intro q rl rec h
            rcases List.mem_cons.mp h with h | h
            · simp at h
            · exact hy q rl rec h
          | none =>
            rw [hres] at heq
            simp only [] at heq
            rcases hrec : usnInner skipZ n (buffer.drop (buffer.length - 60))
                (pos + (buffer.length - 60)) with ⟨evs', b', p'⟩
            rw [hrec] at heq
            obtain ⟨rfl, rfl, rfl⟩ :
                UsnEvent.tailKeep pos (buffer.length - 60) :: evs' = evs ∧ b' = b ∧ p' = p := by
              injection heq with h1 h2
              injection h2 with h2 h3
              exact ⟨h1, h2, h3⟩
            have := hok _ (List.mem_cons_self _ _)
            simp [usnEventOk] at this
        · rw [if_neg hrl] at heq
          by_cases hfit : buffer.length < leVal (slice buffer 0 4)
          · rw [if_pos hfit] at heq
            obtain ⟨rfl, rfl, rfl⟩ : ([] : List UsnEvent) = evs ∧ buffer = b ∧ pos = p := by
              injection heq with h1 h2
              injection h2 with h2 h3
              exact ⟨h1, h2, h3⟩
            exact ⟨by intro q rl rec h; simp at h, hpos⟩
          · rw [if_neg hfit] at heq
            cases hparse : usnParseRecord (buffer.take (leVal (slice buffer 0 4))) with
            | some rec0 =>
              rw [hparse] at heq
              simp only [] at heq
              rcases hrec : usnInner skipZ n (buffer.drop (leVal (slice buffer 0 4)))
                  (pos + leVal (slice buffer 0 4)) with ⟨evs', b', p'⟩
              rw [hrec] at heq
              obtain ⟨rfl, rfl, rfl⟩ :
                  UsnEvent.yield pos (leVal (slice buffer 0 4)) rec0 :: evs' = evs ∧
                    b' = b ∧ p' = p := by
                injection heq with h1 h2
                injection h2 with h2 h3
                exact ⟨h1, h2, h3⟩
              have hrl8 : leVal (slice buffer 0 4) % 8 = 0 := by
                have := hok _ (List.mem_cons_self _ _)
                simpa [usnEventOk] using this
              have hpos' : (pos + leVal (slice buffer 0 4)) % 8 = 0 := by omega
              obtain ⟨hy, hp⟩ := ih _ _ evs' b' p' hrec hpos'
                (fun e he => hok e (List.mem_cons_of_mem _ he))
              refine ⟨?_, hp⟩
              intro q rl rec h
              rcases List.mem_cons.mp h with h | h
              · have : q = pos := by
                  injection h
                omega
              · exact hy q rl rec h
            | none =>
              rw [hparse] at heq
              simp only [] at heq
              rcases hrec : usnInner skipZ n (buffer.drop (leVal (slice buffer 0 4)))
                  (pos + leVal (slice buffer 0 4)) with ⟨evs', b', p'⟩
              rw [hrec] at heq
              obtain ⟨rfl, rfl, rfl⟩ :
                  UsnEvent.drop pos (leVal (slice buffer 0 4)) :: evs' = evs ∧
                    b' = b ∧ p' = p := by
                injection heq with h1 h2
                injection h2 with h2 h3
                exact ⟨h1, h2, h3⟩
              have hrl8 : leVal (slice buffer 0 4) % 8 = 0 := by
                have := hok _ (List.mem_cons_self _ _)
                simpa [usnEventOk] using this
              have hpos' : (pos + leVal (slice buffer 0 4)) % 8 = 0 := by omega
              obtain ⟨hy, hp⟩ := ih _ _ evs' b' p' hrec hpos'
                (fun e he => hok e (List.mem_cons_of_mem _ he))
              refine ⟨?_, hp⟩
              intro q rl rec h
              rcases List.mem_cons.mp h with h | h
              · simp at h
              · exact hy q rl rec h



theorem usnOuter_aligned (skipZ : Bool) :
    ∀ (fuel : Nat) (buffer rest : List Nat) (pos : Nat),
      pos % 8 = 0 →
      (∀ e ∈ usnOuter skipZ fuel buffer rest pos, usnEventOk e = true) →
      ∀ q rl rec, UsnEvent.yield q rl rec ∈ usnOuter skipZ fuel buffer rest pos → q % 8 = 0 := by
  intro fuel
  induction fuel with
  | zero =>
    intro buffer rest pos _ _ q rl rec h
    simp [usnOuter] at h
  | succ n ih =>
    intro buffer rest pos hpos hok q rl rec h
    rw [usnOuter] at hok h
    by_cases hemp : rest.isEmpty
    · rw [if_pos hemp] at h
      simp at h
    · rw [if_neg hemp] at hok h
      simp only [] at hok h
      rcases hrec : usnInner skipZ (n + 1) (buffer ++ rest.take 1048576) pos with ⟨evs, b, p⟩
      rw [hrec] at hok h
      simp only [] at hok h
      have hokin : ∀ e ∈ evs, usnEventOk e = true :=
        fun e he => hok e (List.mem_append_left _ he)
      obtain ⟨hy, hp⟩ := usnInner_aligned skipZ (n + 1) _ pos evs b p hrec hpos hokin
      rcases List.mem_append.mp h with h | h
      · exact hy q rl rec h
      · exact ih b (rest.drop 1048576) p hp
          (fun e he => hok e (List.mem_append_right _ he)) q rl rec h

/-- C6 (amended): a yielded record's file position is a multiple of 8
provided the scan takes no resync-failure (tail-keep) step, no
whole-buffer zero consumption, and every consumed record's
`record_length` — yielded or dropped — is a multiple of 8; zero-skips and
successful resyncs always advance by multiples of 8. -/
theorem c6_alignment_invariant (file : List Nat) (fuel : Nat)
    (hok : ∀ e ∈ usn_iter_records file fuel, usnEventOk e = true) :
    ∀ q rl rec, UsnEvent.yield q rl rec ∈ usn_iter_records file fuel → q % 8 = 0 := by
  unfold usn_iter_records at hok ⊢
  exact usnOuter_aligned true fuel [] file 0 (by omega) hok

set_option maxRecDepth 10000 in
/-- C6 counterexample: a valid 62-byte v2 record followed by a valid
60-byte one — the scanner yields the second record at file position 62,
which is not a multiple of 8, so the alignment claim fails for this
input stream. -/
theorem c6_counterexample :
    yieldPositions (usn_iter_records fileC6 20) = [0, 62] ∧ ¬(62 % 8 = 0) := by
  exact ⟨by decide, by decide⟩


/-- C6 witness: a single well-formed 64-byte record satisfies the benign
condition, and its yield position is a multiple of 8. -/
theorem c6_witness :
    (∀ e ∈ usn_iter_records fileC6w 20, usnEventOk e = true) ∧
    (∀ q rl rec, UsnEvent.yield q rl rec ∈ usn_iter_records fileC6w 20 → q % 8 = 0) :=
  ⟨by decide, c6_alignment_invariant fileC6w 20 (by decide)⟩

end NTFS
